import Mathlib

/-!
Verification development for the Kiro proxy (Go sources under `src/`).

The Go code is shallowly embedded: pure functions become Lean functions,
stateful code becomes explicit state passing, machine integers become `Nat`
with explicit `% 2^32` where overflow matters, and fallible code returns
`Option`/`Except`.  Go strings are modelled as Lean `String`s; Go `len` on
a string is byte length, which coincides with `String.length` on the ASCII
inputs used throughout; where byte-exactness matters we encode through an
explicit UTF-8 encoder.
-/

namespace Kiro

/-! ## UTF-8 encoding of strings (Go `[]byte(s)`) -/

/-- UTF-8 encoding of a single code point, as Go produces for `[]byte(string)`. -/
def utf8Char (c : Char) : List Nat :=
  let n := c.toNat
  if n < 128 then [n]
  else if n < 2048 then [192 + n / 64, 128 + n % 64]
  else if n < 65536 then [224 + n / 4096, 128 + (n / 64) % 64, 128 + n % 64]
  else [240 + n / 262144, 128 + (n / 4096) % 64, 128 + (n / 64) % 64, 128 + n % 64]

/-- The byte sequence of a string, Go's `[]byte(s)`. -/
def utf8Bytes (s : String) : List Nat :=
  s.toList.foldr (fun c acc => utf8Char c ++ acc) []

/-! ## SHA-256 (Go `crypto/sha256`), embedded on `Nat` with explicit mod 2^32 -/

namespace SHA256

def w32 (n : Nat) : Nat := n % 4294967296

/-- 32-bit rotate right. -/
def rotr (n x : Nat) : Nat := x / 2 ^ n + x % 2 ^ n * 2 ^ (32 - n)

def bigSigma0 (x : Nat) : Nat := Nat.xor (Nat.xor (rotr 2 x) (rotr 13 x)) (rotr 22 x)
def bigSigma1 (x : Nat) : Nat := Nat.xor (Nat.xor (rotr 6 x) (rotr 11 x)) (rotr 25 x)
def smallSigma0 (x : Nat) : Nat := Nat.xor (Nat.xor (rotr 7 x) (rotr 18 x)) (x / 8)
def smallSigma1 (x : Nat) : Nat := Nat.xor (Nat.xor (rotr 17 x) (rotr 19 x)) (x / 1024)
def ch (x y z : Nat) : Nat := Nat.xor (Nat.land x y) (Nat.land (Nat.xor x 4294967295) z)
def maj (x y z : Nat) : Nat :=
  Nat.xor (Nat.xor (Nat.land x y) (Nat.land x z)) (Nat.land y z)

/-- The 64 round constants. -/
def K : List Nat :=
  [1116352408, 1899447441, 3049323471, 3921009573, 961987163, 1508970993,
   2453635748, 2870763221, 3624381080, 310598401, 607225278, 1426881987,
   1925078388, 2162078206, 2614888103, 3248222580, 3835390401, 4022224774,
   264347078, 604807628, 770255983, 1249150122, 1555081692, 1996064986,
   2554220882, 2821834349, 2952996808, 3210313671, 3336571891, 3584528711,
   113926993, 338241895, 666307205, 773529912, 1294757372, 1396182291,
   1695183700, 1986661051, 2177026350, 2456956037, 2730485921, 2820302411,
   3259730800, 3345764771, 3516065817, 3600352804, 4094571909, 275423344,
   430227734, 506948616, 659060556, 883997877, 958139571, 1322822218,
   1537002063, 1747873779, 1955562222, 2024104815, 2227730452, 2361852424,
   2428436474, 2756734187, 3204031479, 3329325298]

structure Digest where
  a : Nat
  b : Nat
  c : Nat
  d : Nat
  e : Nat
  f : Nat
  g : Nat
  h : Nat

def initDigest : Digest :=
  ⟨1779033703, 3144134277, 1013904242, 2773480762,
   1359893119, 2600822924, 528734635, 1541459225⟩

def compressRound (k w : Nat) (d : Digest) : Digest :=
  let t1 := w32 (d.h + bigSigma1 d.e + ch d.e d.f d.g + k + w)
  let t2 := w32 (bigSigma0 d.a + maj d.a d.b d.c)
  ⟨w32 (t1 + t2), d.a, d.b, d.c, w32 (d.d + t1), d.e, d.f, d.g⟩

/-- Extend 16 message words to the 64-entry schedule. -/
def schedule (ws : Array Nat) : Array Nat :=
  (List.range 48).foldl
    (fun a i =>
      let t := i + 16
      a.push (w32 (smallSigma1 (a.getD (t - 2) 0) + a.getD (t - 7) 0 +
        smallSigma0 (a.getD (t - 15) 0) + a.getD (t - 16) 0)))
    ws

def compressBlock (h0 : Digest) (ws : Array Nat) : Digest :=
  let w64 := schedule ws
  let d := (List.range 64).foldl
    (fun d i => compressRound (K.getD i 0) (w64.getD i 0) d) h0
  ⟨w32 (h0.a + d.a), w32 (h0.b + d.b), w32 (h0.c + d.c), w32 (h0.d + d.d),
   w32 (h0.e + d.e), w32 (h0.f + d.f), w32 (h0.g + d.g), w32 (h0.h + d.h)⟩

/-- Big-endian bytes of a value, fixed width `n` bytes. -/
def beBytes : Nat → Nat → List Nat
  | 0, _ => []
  | n + 1, v => v / 256 ^ n % 256 :: beBytes n v

/-- SHA-256 padding: append 128, zero bytes, and the 64-bit bit length. -/
def pad (msg : List Nat) : List Nat :=
  let len := msg.length
  let k := (119 - len % 64) % 64
  msg ++ [128] ++ List.replicate k 0 ++ beBytes 8 (8 * len)

/-- Split a byte list (whose length is a multiple of 64 after padding) into
64-byte blocks of 16 big-endian 32-bit words. -/
def toBlocks (bytes : List Nat) : List (Array Nat) :=
  (List.range (bytes.length / 64)).map fun b =>
    ((List.range 16).map fun i =>
      bytes.getD (64 * b + 4 * i) 0 * 16777216 + bytes.getD (64 * b + 4 * i + 1) 0 * 65536 +
        bytes.getD (64 * b + 4 * i + 2) 0 * 256 + bytes.getD (64 * b + 4 * i + 3) 0).toArray

/-- The 32 digest bytes of a byte message. -/
def digestBytes (msg : List Nat) : List Nat :=
  let d := (toBlocks (pad msg)).foldl compressBlock initDigest
  beBytes 4 d.a ++ beBytes 4 d.b ++ beBytes 4 d.c ++ beBytes 4 d.d ++
    beBytes 4 d.e ++ beBytes 4 d.f ++ beBytes 4 d.g ++ beBytes 4 d.h

def hexDigitChar (n : Nat) : Char :=
  if n < 10 then Char.ofNat (48 + n) else Char.ofNat (87 + n)

/-- Lowercase hex encoding of a byte list (Go `hex.EncodeToString`). -/
def hexEncode (bytes : List Nat) : String :=
  String.mk (bytes.foldr (fun b acc => hexDigitChar (b / 16) :: hexDigitChar (b % 16) :: acc) [])

end SHA256

/-- `sha256Hash` from `src/server/token_cache.go`: hex of the SHA-256 of the
UTF-8 bytes of the string. -/
def sha256Hash (text : String) : String :=
  SHA256.hexEncode (SHA256.digestBytes (utf8Bytes text))

/-! ## Token parsing and the token cache (`src/server/token_cache.go`) -/

inductive TokenType
  | kiro
  | amazonQ
deriving DecidableEq, Repr

/-- Split on the first colon, if any (one step of Go `strings.SplitN(s, ":", n)`). -/
def splitOnceColon : List Char → Option (List Char × List Char)
  | [] => none
  | c :: cs =>
    if c = ':' then some ([], cs)
    else match splitOnceColon cs with
      | some (a, b) => some (c :: a, b)
      | none => none

/-- Go `strings.SplitN(token, ":", 3)`. -/
def splitNColon3 (s : String) : List String :=
  match splitOnceColon s.toList with
  | none => [s]
  | some (a, r) =>
    match splitOnceColon r with
    | none => [String.mk a, String.mk r]
    | some (b, c) => [String.mk a, String.mk b, String.mk c]

structure ParsedToken where
  tokenType : TokenType
  clientID : String
  clientSecret : String
  refreshToken : String
deriving DecidableEq, Repr

/-- `ParseToken` from `src/server/token_cache.go`: three non-degenerate
colon-separated parts classify as AmazonQ, anything else as Kiro. -/
def ParseToken (token : String) : ParsedToken :=
  let parts := splitNColon3 token
  match parts with
  | [p0, p1, p2] =>
    if p0 ≠ "" ∧ p2 ≠ "" then ⟨.amazonQ, p0, p1, p2⟩
    else ⟨.kiro, "", "", token⟩
  | _ => ⟨.kiro, "", "", token⟩

/-- `TokenCache` entry from `src/server/token_cache.go`. -/
structure TokenCacheEntry where
  accessToken : String
  refreshToken : String
  lastRefresh : Nat
  tokenType : TokenType
  clientID : String
  clientSecret : String
deriving DecidableEq, Repr

/-- Lookup in a Go map modelled as an association list. -/
def lookupA {α : Type} (m : List (String × α)) (k : String) : Option α :=
  match m with
  | [] => none
  | (k', v) :: rest => if k' = k then some v else lookupA rest k

/-- Go `delete(m, k)` on a map modelled as an association list. -/
def eraseA {α : Type} (m : List (String × α)) (k : String) : List (String × α) :=
  match m with
  | [] => []
  | (k', v) :: rest => if k' = k then eraseA rest k else (k', v) :: eraseA rest k

/-- Go map assignment `m[k] = v` on a map modelled as an association list. -/
def setA {α : Type} (m : List (String × α)) (k : String) (v : α) : List (String × α) :=
  (k, v) :: eraseA m k

/-- The global `tokenMap`, modelled as an association list keyed by hash. -/
abbrev TokenMap := List (String × TokenCacheEntry)

def lookupMap (m : TokenMap) (k : String) : Option TokenCacheEntry := lookupA m k

def eraseMap (m : TokenMap) (k : String) : TokenMap := eraseA m k

/-- Which external refresh endpoint was called, if any. -/
inductive RefreshCall
  | noCall
  | kiroEndpoint (refreshToken : String)
  | amazonQEndpoint (clientID clientSecret refreshToken : String)
deriving DecidableEq, Repr

structure GetTokenResult where
  result : Except String String
  newMap : TokenMap
  call : RefreshCall
deriving Repr

/-- `GetOrRefreshToken` from `src/server/token_cache.go`.  The network
exchange is passed in as `refreshOutcome` (the access token on success);
`now` stands for `time.Now()`.  On a cache hit the cached access token is
returned with no call and no map change; on a miss the matching endpoint is
called and, on success, the entry is stored under the SHA-256 of the raw
credential string. -/
def GetOrRefreshToken (m : TokenMap) (token : String)
    (refreshOutcome : Except String String) (now : Nat) : GetTokenResult :=
  let tokenHash := sha256Hash token
  match lookupMap m tokenHash with
  | some cached => ⟨.ok cached.accessToken, m, .noCall⟩
  | none =>
    let p := ParseToken token
    let call : RefreshCall :=
      match p.tokenType with
      | .amazonQ => .amazonQEndpoint p.clientID p.clientSecret p.refreshToken
      | .kiro => .kiroEndpoint p.refreshToken
    match refreshOutcome with
    | .error e => ⟨.error e, m, call⟩
    | .ok accessToken =>
      ⟨.ok accessToken,
        (tokenHash, ⟨accessToken, p.refreshToken, now, p.tokenType, p.clientID, p.clientSecret⟩) :: m,
        call⟩

/-- `InvalidateToken` from `src/server/token_cache.go`: delete the entry
keyed by the SHA-256 of the raw credential. -/
def InvalidateToken (m : TokenMap) (token : String) : TokenMap :=
  eraseMap m (sha256Hash token)

/-- The token-map effect of `handleCodeWhispererError`
(`src/converter/tools.go` lines 744-798): a 403 upstream status invalidates
the presented credential's cache entry; any other status leaves the map
unchanged. -/
def handleCodeWhispererErrorTokenMap (m : TokenMap) (statusCode : Nat)
    (refreshToken : String) : TokenMap :=
  if statusCode = 403 then InvalidateToken m refreshToken else m

/-! ## Prompt cache (`src/unnamed/part_001`, package `cache`)

Wall-clock time is modelled as `Nat` seconds passed in explicitly as `now`.
-/

/-- `CacheEntry` from the `cache` package. -/
structure CacheEntry where
  tokens : Nat
  expTime : Nat
  ttl : String
deriving DecidableEq, Repr

/-- The `PromptCache.entries` map, as an association list. -/
abbrev PromptCacheMap := List (String × CacheEntry)

def lookupCache (m : PromptCacheMap) (k : String) : Option CacheEntry := lookupA m k

def eraseCache (m : PromptCacheMap) (k : String) : PromptCacheMap := eraseA m k

/-- Go map assignment `c.entries[hash] = e`. -/
def setCache (m : PromptCacheMap) (k : String) (v : CacheEntry) : PromptCacheMap := setA m k v

/-- `calculateExpTime`: `"1h"` means one hour from now, anything else five
minutes from now. -/
def calculateExpTime (now : Nat) (ttl : String) : Nat :=
  if ttl = "1h" then now + 3600 else now + 300

/-- `PromptCache.Get`: a lookup that lazily expires and, on a live hit,
refreshes the entry's expiry from its stored TTL.  Returns the entry (with
the refreshed expiry, as the Go code mutates it through the pointer) and
the updated map. -/
def promptCacheGet (m : PromptCacheMap) (hash : String) (now : Nat) :
    Option CacheEntry × PromptCacheMap :=
  match lookupCache m hash with
  | none => (none, m)
  | some entry =>
    if now > entry.expTime then
      (none, eraseCache m hash)
    else
      let refreshed := { entry with expTime := calculateExpTime now entry.ttl }
      (some refreshed, setCache m hash refreshed)

/-- `PromptCache.Set`: create an entry with the computed tokens and TTL. -/
def promptCacheSet (m : PromptCacheMap) (hash : String) (tokens : Nat) (ttl : String)
    (now : Nat) : PromptCacheMap :=
  setCache m hash ⟨tokens, calculateExpTime now ttl, ttl⟩

/-- `cache_control` marker on a content block. -/
structure CacheControl where
  type : String
  ttl : String
deriving DecidableEq, Repr

/-- Per-request cache accounting counters from `CacheResult`. -/
structure CacheResult where
  totalTokens : Nat
  cacheCreationTokens : Nat
  cacheReadTokens : Nat
deriving DecidableEq, Repr

/-- `processContentBlock` from the `cache` package: hit adds the stored
token count to the read counter (the `Get` refreshed the expiry); miss with
an `ephemeral` marker creates an entry under the declared TTL (default
`"5m"`) and adds the computed tokens to the creation counter; miss without
the marker changes nothing. -/
def processContentBlock (pc : PromptCacheMap) (hash : String) (tokens : Nat)
    (cc : Option CacheControl) (result : CacheResult) (now : Nat) :
    PromptCacheMap × CacheResult :=
  let hasCacheControl : Bool := match cc with
    | some c => c.type == "ephemeral"
    | none => false
  match promptCacheGet pc hash now with
  | (some entry, pc') =>
    (pc', { result with cacheReadTokens := result.cacheReadTokens + entry.tokens })
  | (none, pc') =>
    if hasCacheControl then
      let ttl := match cc with
        | some c => if c.ttl = "" then "5m" else c.ttl
        | none => "5m"
      (promptCacheSet pc' hash tokens ttl now,
       { result with cacheCreationTokens := result.cacheCreationTokens + tokens })
    else
      (pc', result)

/-! ## AWS EventStream frame codec (`src/converter/tools.go`, package `parser`)

Bytes are modelled as `Nat`s; the wire reads below are exact for values
below 256, which is all a byte can hold.
-/

/-- `config.EventStreamMinMessageSize`. -/
def EventStreamMinMessageSize : Nat := 16

/-- `config.EventStreamMaxMessageSize` (16 MiB). -/
def EventStreamMaxMessageSize : Nat := 16 * 1024 * 1024

/-- Modelled from the spec: `config.ParserMaxErrors` is not under `src/`;
§4.1 gives the error-count ceiling default 30. -/
def ParserMaxErrors : Nat := 30

/-- Big-endian `uint32` read of the first four bytes (`binary.BigEndian.Uint32`). -/
def readU32 (b : List Nat) : Nat :=
  b.getD 0 0 * 16777216 + b.getD 1 0 * 65536 + b.getD 2 0 * 256 + b.getD 3 0

/-- Big-endian `uint16` read of the first two bytes. -/
def readU16 (b : List Nat) : Nat :=
  b.getD 0 0 * 256 + b.getD 1 0

/-- Header names arrive as raw bytes; they are ASCII in practice. -/
def bytesToString (bs : List Nat) : String :=
  String.mk (bs.map Char.ofNat)

/-- A typed header value over the AWS EventStream value set. -/
inductive HeaderValue
  | boolTrue
  | boolFalse
  | byteV (n : Nat)
  | int16V (n : Nat)
  | int32V (n : Nat)
  | int64V (n : Nat)
  | bytesV (bs : List Nat)
  | stringV (s : String)
  | timestampV (n : Nat)
  | uuidV (bs : List Nat)
deriving DecidableEq, Repr

/-- Modelled from the spec: the `HeaderParser` (package `parser`) is not
under `src/`.  §4.1: each header is `name-length (1 byte) | name | value-type
(1 byte) | value`, string and bytes values carry a 2-byte big-endian length
prefix, fixed-width integers are big-endian, timestamp is int64, uuid is 16
bytes.  Returns `none` on any structural failure. -/
def parseHeadersFuel : Nat → List Nat → Option (List (String × HeaderValue))
  | 0, _ => none
  | _ + 1, [] => some []
  | fuel + 1, nameLen :: rest =>
    if rest.length < nameLen + 1 then none
    else
      let name := bytesToString (rest.take nameLen)
      let vt := rest.getD nameLen 0
      let after := rest.drop (nameLen + 1)
      let fixed : Nat → (Nat → HeaderValue) → Option (List (String × HeaderValue)) :=
        fun width mk =>
          if after.length < width then none
          else
            match parseHeadersFuel fuel (after.drop width) with
            | some hs =>
              some ((name, mk ((after.take width).foldl (fun a b => a * 256 + b) 0)) :: hs)
            | none => none
      match vt with
      | 0 =>
        match parseHeadersFuel fuel after with
        | some hs => some ((name, .boolTrue) :: hs)
        | none => none
      | 1 =>
        match parseHeadersFuel fuel after with
        | some hs => some ((name, .boolFalse) :: hs)
        | none => none
      | 2 => fixed 1 .byteV
      | 3 => fixed 2 .int16V
      | 4 => fixed 4 .int32V
      | 5 => fixed 8 .int64V
      | 6 =>
        if after.length < 2 + readU16 after then none
        else
          match parseHeadersFuel fuel (after.drop (2 + readU16 after)) with
          | some hs => some ((name, .bytesV ((after.drop 2).take (readU16 after))) :: hs)
          | none => none
      | 7 =>
        if after.length < 2 + readU16 after then none
        else
          match parseHeadersFuel fuel (after.drop (2 + readU16 after)) with
          | some hs =>
            some ((name, .stringV (bytesToString ((after.drop 2).take (readU16 after)))) :: hs)
          | none => none
      | 8 => fixed 8 .timestampV
      | 9 =>
        if after.length < 16 then none
        else
          match parseHeadersFuel fuel (after.drop 16) with
          | some hs => some ((name, .uuidV (after.take 16)) :: hs)
          | none => none
      | _ => none

/-- Header-block parser entry point; the fuel is ample since every header
consumes at least two bytes. -/
def ParseHeaders (bytes : List Nat) : Option (List (String × HeaderValue)) :=
  parseHeadersFuel (bytes.length + 1) bytes

/-- The synthesized default header map used for an empty or unparseable
header block (`parseSingleMessageWithValidation`). -/
def defaultHeaders : List (String × HeaderValue) :=
  [(":message-type", .stringV "event"),
   (":event-type", .stringV "assistantResponseEvent"),
   (":content-type", .stringV "application/json")]

/-- Modelled from the spec: `GetMessageTypeFromHeaders` and friends are not
under `src/`; §3 says the derived fields are the string values of the
corresponding headers. -/
def getStringHeader (hs : List (String × HeaderValue)) (name : String) : String :=
  match lookupA hs name with
  | some (.stringV s) => s
  | _ => ""

/-- `EventStreamMessage` (package `parser`). -/
structure EventStreamMessage where
  headers : List (String × HeaderValue)
  payload : List Nat
  messageType : String
  eventType : String
  contentType : String
deriving DecidableEq, Repr

/-- `parseSingleMessageWithValidation` from `src/converter/tools.go`
(package `parser`): validates the prelude lengths of a single frame (CRC
verification is commented out in the source), extracts the header block and
payload, parses headers with the default-header fallback, and derives the
typed fields.  `none` stands for every error return. -/
def parseSingleMessageWithValidation (data : List Nat) : Option EventStreamMessage :=
  if data.length < 16 then none
  else
    let totalLength := readU32 data
    let headerLength := readU32 (data.drop 4)
    if totalLength ≠ data.length then none
    else if data.length < 12 then none
    else if totalLength < 16 then none
    else if totalLength > 16 * 1024 * 1024 then none
    else if headerLength > totalLength - 16 then none
    else
      let payloadStart := 12 + headerLength
      let payloadEnd := totalLength - 4
      if payloadStart > payloadEnd ∨ payloadEnd > data.length then none
      else
        let headerData := (data.drop 12).take headerLength
        let payloadData := (data.drop payloadStart).take (payloadEnd - payloadStart)
        let headers :=
          if headerData.length = 0 then defaultHeaders
          else
            match ParseHeaders headerData with
            | some hs => hs
            | none => defaultHeaders
        some ⟨headers, payloadData,
          getStringHeader headers ":message-type",
          getStringHeader headers ":event-type",
          getStringHeader headers ":content-type"⟩

/-- `RobustEventStreamParser` state: the growing byte buffer and the
persistent error count (the mutex and the header-parser sub-object carry no
sequential state of their own). -/
structure ParserState where
  buffer : List Nat
  errorCount : Nat
  maxErrors : Nat
deriving Repr

/-- `NewRobustEventStreamParser`. -/
def NewRobustEventStreamParser : ParserState :=
  ⟨[], 0, ParserMaxErrors⟩

/-- Add one counted error to a drain-loop result. -/
def consErr (r : List EventStreamMessage × List Nat × Nat) :
    List EventStreamMessage × List Nat × Nat :=
  (r.1, r.2.1, r.2.2 + 1)

/-- Prepend one decoded message to a drain-loop result. -/
def consMsg (m : EventStreamMessage) (r : List EventStreamMessage × List Nat × Nat) :
    List EventStreamMessage × List Nat × Nat :=
  (m :: r.1, r.2.1, r.2.2)

/-- The drain loop of `parseStreamWithBuffer`: repeatedly inspect the
declared total length at the front of the buffer; skip one byte and count
an error when it is implausible (`rp.buffer.Next(1)` in the source); stop
without consuming when a plausible frame is not yet complete; otherwise
consume the frame and parse it.  Returns the decoded messages, the
remaining buffer, and the number of errors counted. -/
def drainLoop (buf : List Nat) : List EventStreamMessage × List Nat × Nat :=
  if buf.length < EventStreamMinMessageSize then ([], buf, 0)
  else if readU32 buf < EventStreamMinMessageSize ∨ EventStreamMaxMessageSize < readU32 buf then
    consErr (drainLoop (buf.drop 1))
  else if buf.length < readU32 buf then ([], buf, 0)
  else
    match parseSingleMessageWithValidation (buf.take (readU32 buf)) with
    | some m => consMsg m (drainLoop (buf.drop (readU32 buf)))
    | none => consErr (drainLoop (buf.drop (readU32 buf)))
termination_by buf.length
decreasing_by
  all_goals
    simp only [List.length_drop, EventStreamMinMessageSize] at *
    omega

/-- `parseStreamWithBuffer` from `src/converter/tools.go`: append the new
data to the buffer, drain all complete frames, and report a terminal error
when the accumulated error count has reached the ceiling.  Returns the
messages, the new parser state, and whether the error return fired. -/
def parseStreamWithBuffer (st : ParserState) (data : List Nat) :
    List EventStreamMessage × ParserState × Bool :=
  let r := drainLoop (st.buffer ++ data)
  let st' : ParserState := ⟨r.2.1, st.errorCount + r.2.2, st.maxErrors⟩
  (r.1, st', if st'.errorCount ≥ st.maxErrors then true else false)

/-- `ParseStream` wraps `parseStreamWithBuffer` in a mutex, which carries no
sequential content. -/
def ParseStream (st : ParserState) (data : List Nat) :
    List EventStreamMessage × ParserState × Bool :=
  parseStreamWithBuffer st data

/-- Feed a list of chunks through `ParseStream` one at a time, concatenating
the messages in feed order. -/
def feedAll (st : ParserState) : List (List Nat) → List EventStreamMessage × ParserState
  | [] => ([], st)
  | c :: cs =>
    let r := ParseStream st c
    let rest := feedAll r.2.1 cs
    (r.1 ++ rest.1, rest.2)


/-! ## JSON values (Go `map[string]any` / `any` for schemas and tool inputs) -/

/-- A JSON value; Go objects become association lists. -/
inductive JValue
  | jnull
  | jbool (b : Bool)
  | jnum (n : Int)
  | jstr (s : String)
  | jarr (xs : List JValue)
  | jobj (fields : List (String × JValue))

mutual

/-- A canonical stringifier standing for Go `fmt.Sprintf("%v", x)`. -/
def goSprint : JValue → String
  | .jnull => "<nil>"
  | .jbool true => "true"
  | .jbool false => "false"
  | .jnum n => toString n
  | .jstr s => s
  | .jarr xs => "[" ++ String.intercalate " " (goSprintList xs) ++ "]"
  | .jobj fs => "map[" ++ String.intercalate " " (goSprintFields fs) ++ "]"

def goSprintList : List JValue → List String
  | [] => []
  | x :: xs => goSprint x :: goSprintList xs

def goSprintFields : List (String × JValue) → List String
  | [] => []
  | (k, v) :: xs => (k ++ ":" ++ goSprint v) :: goSprintFields xs

end

/-! ## Anthropic request data model (package `types`; the type declarations
are not under `src/`, their shape is fixed by the uses in
`src/config/constants.go`, `src/server/middleware.go` and the spec §3) -/

/-- One Anthropic content block (Go `types.ContentBlock`; pointer fields
become `Option`). -/
structure ContentBlock where
  type : String
  text : Option String := none
  id : Option String := none
  name : Option String := none
  input : Option JValue := none
  toolUseId : Option String := none
  content : Option JValue := none
  isError : Option Bool := none
  cacheControl : Option CacheControl := none
  source : Option String := none

/-- Message content: the polymorphic Go `any` admits a bare string or a
block list (spec §9 prescribes the tagged variant at the module boundary;
the loose `[]any` JSON form carries the same data as the typed form). -/
inductive MsgContent
  | str (s : String)
  | blocks (bs : List ContentBlock)

structure AnthropicRequestMessage where
  role : String
  content : MsgContent

structure SystemMessage where
  text : String
  cacheControl : Option CacheControl := none
deriving DecidableEq, Repr

structure ThinkingConfig where
  type : String
  budgetTokens : Int := 0
deriving DecidableEq, Repr

structure ToolChoice where
  type : String
  name : String := ""
deriving DecidableEq, Repr

structure AnthropicTool where
  name : String
  description : String
  inputSchema : List (String × JValue)

structure AnthropicRequest where
  model : String := ""
  system : List SystemMessage := []
  messages : List AnthropicRequestMessage := []
  tools : List AnthropicTool := []
  toolChoice : Option ToolChoice := none
  stream : Bool := false
  maxTokens : Nat := 0
  temperature : Option Int := none
  thinking : Option ThinkingConfig := none

/-! ## CodeWhisperer request data model -/

structure CodeWhispererImage where
  source : String
deriving DecidableEq, Repr

/-- `types.ToolResult`; content items are the retained `text` values. -/
structure ToolResult where
  toolUseId : String := ""
  content : List JValue := []
  status : String := ""
  isError : Bool := false

structure ToolUseEntry where
  toolUseId : String := ""
  name : String := ""
  input : JValue := .jobj []

structure CodeWhispererTool where
  name : String
  description : String
  inputSchemaJson : List (String × JValue)

structure UserInputMessageContext where
  tools : List CodeWhispererTool := []
  toolResults : List ToolResult := []

structure UserInputMessage where
  content : String := ""
  images : List CodeWhispererImage := []
  modelId : String := ""
  origin : String := ""
  userInputMessageContext : UserInputMessageContext := {}

structure HistoryUserMessage where
  userInputMessage : UserInputMessage := {}

structure HistoryAssistantMessage where
  content : String := ""
  toolUses : List ToolUseEntry := []

/-- Go stores history as `[]any` holding the two entry shapes. -/
inductive HistoryEntry
  | user (u : HistoryUserMessage)
  | assistant (a : HistoryAssistantMessage)

def HistoryEntry.isUser : HistoryEntry → Bool
  | .user _ => true
  | .assistant _ => false

def HistoryEntry.isAssistant : HistoryEntry → Bool
  | .user _ => false
  | .assistant _ => true

structure CurrentMessage where
  userInputMessage : UserInputMessage := {}

structure ConversationState where
  chatTriggerType : String := ""
  conversationId : String := ""
  currentMessage : CurrentMessage := {}
  history : List HistoryEntry := []

structure InferenceConfig where
  maxTokens : Nat
  temperature : Option Int := none
deriving DecidableEq, Repr

structure CodeWhispererRequest where
  conversationState : ConversationState := {}
  inferenceConfig : Option InferenceConfig := none

/-! ## Config (`src/unnamed/part_004`, package `config`) -/

/-- `config.ModelMap`. -/
def ModelMap : List (String × String) :=
  [("claude-opus-4-5", "claude-opus-4.5"),
   ("claude-opus-4-5-20251101", "claude-opus-4.5"),
   ("claude-sonnet-4-5", "claude-sonnet-4.5"),
   ("claude-sonnet-4-5-20250929", "claude-sonnet-4.5"),
   ("claude-haiku-4-5", "claude-haiku-4.5"),
   ("claude-haiku-4-5-20251001", "claude-haiku-4.5"),
   ("claude-opus-4-5-thinking", "claude-opus-4.5"),
   ("claude-opus-4-5-20251101-thinking", "claude-opus-4.5"),
   ("claude-sonnet-4-5-thinking", "claude-sonnet-4.5"),
   ("claude-sonnet-4-5-20250929-thinking", "claude-sonnet-4.5"),
   ("claude-haiku-4-5-thinking", "claude-haiku-4.5"),
   ("claude-haiku-4-5-20251001-thinking", "claude-haiku-4.5"),
   ("claude-sonnet-4-20250514", "claude-sonnet-4.5"),
   ("claude-sonnet-4", "claude-sonnet-4.5"),
   ("claude-4-sonnet", "claude-sonnet-4.5"),
   ("claude-sonnet-4-20250514-thinking", "claude-sonnet-4.5"),
   ("claude-sonnet-4-thinking", "claude-sonnet-4.5"),
   ("claude-4-sonnet-thinking", "claude-sonnet-4.5"),
   ("claude-opus-4-1-20250805", "claude-opus-4.5"),
   ("claude-opus-4-1", "claude-opus-4.5"),
   ("claude-opus-4-1-20250805-thinking", "claude-opus-4.5"),
   ("claude-opus-4-1-thinking", "claude-opus-4.5"),
   ("claude-opus-4-20250514", "claude-opus-4.5"),
   ("claude-opus-4", "claude-opus-4.5"),
   ("claude-4-opus", "claude-opus-4.5"),
   ("claude-opus-4-20250514-thinking", "claude-opus-4.5"),
   ("claude-opus-4-thinking", "claude-opus-4.5"),
   ("claude-4-opus-thinking", "claude-opus-4.5"),
   ("claude-3-7-sonnet-20250219", "claude-sonnet-4.5"),
   ("claude-3-7-sonnet", "claude-sonnet-4.5"),
   ("claude-sonnet-3-7", "claude-sonnet-4.5"),
   ("claude-3-7-sonnet-20250219-thinking", "claude-sonnet-4.5"),
   ("claude-3-7-sonnet-thinking", "claude-sonnet-4.5"),
   ("claude-sonnet-3-7-thinking", "claude-sonnet-4.5"),
   ("claude-3-5-haiku-20241022", "claude-haiku-4.5"),
   ("claude-3-5-haiku", "claude-haiku-4.5"),
   ("claude-haiku-3-5", "claude-haiku-4.5"),
   ("claude-3-5-haiku-20241022-thinking", "claude-haiku-4.5"),
   ("claude-3-5-haiku-thinking", "claude-haiku-4.5"),
   ("claude-haiku-3-5-thinking", "claude-haiku-4.5"),
   ("claude-3-5-sonnet-20241022", "claude-sonnet-4.5"),
   ("claude-3-5-sonnet", "claude-sonnet-4.5"),
   ("claude-sonnet-3-5", "claude-sonnet-4.5"),
   ("claude-3-5-sonnet-20241022-thinking", "claude-sonnet-4.5"),
   ("claude-3-5-sonnet-thinking", "claude-sonnet-4.5"),
   ("claude-sonnet-3-5-thinking", "claude-sonnet-4.5")]

/-- `config.MaxToolDescriptionLength` at its default (the env override is
external input). -/
def MaxToolDescriptionLength : Nat := 10000

/-! ## Go string helpers -/

/-- Go slice `s[:k]` (byte indices; ASCII-faithful on characters). -/
def goTake (s : String) (k : Nat) : String := String.mk (s.toList.take k)

/-- Go slice `s[k:]`. -/
def goDrop (s : String) (k : Nat) : String := String.mk (s.toList.drop k)

/-- Go `unicode.IsSpace`. -/
def isGoSpace (c : Char) : Bool :=
  c.toNat = 9 ∨ c.toNat = 10 ∨ c.toNat = 11 ∨ c.toNat = 12 ∨ c.toNat = 13 ∨ c.toNat = 32 ∨
    c.toNat = 0x85 ∨ c.toNat = 0xA0 ∨ c.toNat = 0x1680 ∨
    (0x2000 ≤ c.toNat ∧ c.toNat ≤ 0x200A) ∨ c.toNat = 0x2028 ∨ c.toNat = 0x2029 ∨
    c.toNat = 0x202F ∨ c.toNat = 0x205F ∨ c.toNat = 0x3000

/-- Go `strings.TrimSpace`. -/
def goTrimSpace (s : String) : String :=
  String.mk (((s.toList.dropWhile isGoSpace).reverse.dropWhile isGoSpace).reverse)

/-! ## Request translator (`src/config/constants.go`, package `converter`) -/

/-- The `agenticSystemPrompt` constant. -/
def agenticSystemPrompt : String :=
  "\n# CRITICAL: CHUNKED WRITE PROTOCOL (MANDATORY)\n\n- **MAXIMUM 350 LINES** per single write/edit operation\n- AWS Kiro API has a 2-3 minute timeout for large file write operations\n- If you need to write more than 350 lines, split into multiple operations\n- For new files: Create with first chunk, then append remaining chunks\n- For edits: Make multiple targeted edits instead of one large replacement\n"

/-- `extractTextFromContent`: the first text block's text, or the bare
string itself. -/
def extractTextFromContent : MsgContent → String
  | .str s => s
  | .blocks bs =>
    match bs.find? (fun b => b.type == "text" && b.text.isSome) with
    | some b => b.text.getD ""
    | none => ""

/-- `getLastUserMessageContent`: text of the last user message. -/
def getLastUserMessageContent (messages : List AnthropicRequestMessage) : String :=
  match messages.reverse.find? (fun m => m.role == "user") with
  | some m => extractTextFromContent m.content
  | none => ""

/-- `isAgenticMode`: the last user message, trimmed, starts with `-agent`. -/
def isAgenticMode (messages : List AnthropicRequestMessage) : Bool :=
  "-agent".isPrefixOf (goTrimSpace (getLastUserMessageContent messages))

/-- Modelled from the spec: `utils.GetMessageContent` is not under `src/`.
§9's content walker returns the text of a content value: the bare string
itself, or the text blocks of a block list joined with newlines. -/
def GetMessageContent : MsgContent → String
  | .str s => s
  | .blocks bs =>
    String.intercalate "\n"
      ((bs.filterMap fun b => if b.type == "text" then b.text else none))

/-- Modelled from the spec: `processMessageContent` is not under `src/`.
§4.2 step 3 extracts text and image blocks through the polymorphic walker;
text blocks are joined with newlines and image sources are collected. -/
def processMessageContent : MsgContent → String × List CodeWhispererImage
  | .str s => (s, [])
  | .blocks bs =>
    (String.intercalate "\n" (bs.filterMap fun b => if b.type == "text" then b.text else none),
     bs.filterMap fun b =>
       if b.type == "image" then some ⟨b.source.getD ""⟩ else none)

/-- `buildEnhancedSystemPrompt`: original system prompts, then the Agentic
block when the last user message starts with `-agent`, then the thinking
block when thinking is explicitly enabled (budget default 16000); trimmed. -/
def buildEnhancedSystemPrompt (req : AnthropicRequest) : String :=
  let s1 := req.system.foldl
    (fun acc sysMsg => if sysMsg.text ≠ "" then acc ++ sysMsg.text ++ "\n" else acc) ""
  let s2 := if isAgenticMode req.messages then s1 ++ "\n" ++ agenticSystemPrompt else s1
  let shouldEnableThinking := match req.thinking with
    | some t => t.type == "enabled"
    | none => false
  let budgetTokens : Int := match req.thinking with
    | some t => if t.budgetTokens > 0 then t.budgetTokens else 16000
    | none => 16000
  let s3 := if shouldEnableThinking then
      s2 ++ "\n<thinking_mode>interleaved</thinking_mode><max_thinking_length>" ++
        toString budgetTokens ++ "</max_thinking_length>"
    else s2
  goTrimSpace s3

/-- `determineChatTriggerType`: AUTO only when tools are declared and the
tool choice's type is `any` or `tool`. -/
def determineChatTriggerType (req : AnthropicRequest) : String :=
  if ¬req.tools.isEmpty then
    match req.toolChoice with
    | some tc => if tc.type = "any" ∨ tc.type = "tool" then "AUTO" else "MANUAL"
    | none => "MANUAL"
  else "MANUAL"

/-- The cleaned `content` array of one tool result
(`extractToolResultsFromMessage`): only the `text` values are retained;
an empty result is padded with one empty text. -/
def cleanToolResultContent : Option JValue → List JValue
  | none => [.jstr ""]
  | some (.jstr s) => [.jstr s]
  | some (.jarr items) =>
    let kept := items.filterMap fun it =>
      match it with
      | .jobj fs =>
        match lookupA fs "text" with
        | some v => some v
        | none => none
      | _ => none
    if kept.isEmpty then [.jstr ""] else kept
  | some (.jobj fs) =>
    match lookupA fs "text" with
    | some v => [v]
    | none => [.jstr ""]
  | some v => [.jstr (goSprint v)]

/-- `extractToolResultsFromMessage` over the typed block form; a bare
string carries no tool results. -/
def extractToolResultsFromMessage : MsgContent → List ToolResult
  | .str _ => []
  | .blocks bs =>
    bs.filterMap fun b =>
      if b.type = "tool_result" then
        some { toolUseId := b.toolUseId.getD "",
               content := cleanToolResultContent b.content,
               status := if b.isError = some true then "error" else "success",
               isError := b.isError = some true }
      else none

/-- `extractToolUsesFromMessage`: tool_use blocks with the unsupported
`web_search`/`websearch` names silently dropped; a non-object input is
wrapped as `{value: input}` and a missing one becomes `{}`. -/
def extractToolUsesFromMessage : MsgContent → List ToolUseEntry
  | .str _ => []
  | .blocks bs =>
    bs.filterMap fun b =>
      if b.type = "tool_use" then
        let name := b.name.getD ""
        if name = "web_search" ∨ name = "websearch" then none
        else
          some { toolUseId := b.id.getD "",
                 name := name,
                 input := match b.input with
                   | some (.jobj fs) => .jobj fs
                   | some v => .jobj [("value", v)]
                   | none => .jobj [] }
      else none

/-- One user message folded into the accumulated (texts, images, tool
results) of a merge: the text and its images are collected only when the
text is non-empty (as in the Go loop), the tool results always. -/
def mergeUserStep (acc : List String × List CodeWhispererImage × List ToolResult)
    (userMsg : AnthropicRequestMessage) :
    List String × List CodeWhispererImage × List ToolResult :=
  let r := processMessageContent userMsg.content
  let acc1 :=
    if r.1 ≠ "" then (acc.1 ++ [r.1], acc.2.1 ++ r.2, acc.2.2)
    else acc
  let toolResults := extractToolResultsFromMessage userMsg.content
  (acc1.1, acc1.2.1, acc1.2.2 ++ toolResults)

/-- The merge of a buffered run of consecutive user messages into one
history-user entry (`BuildCodeWhispererRequest` history folding): texts
joined with newlines, images and tool results unioned, content blanked
when tool results are present. -/
def mergeUserMessages (buffer : List AnthropicRequestMessage) (modelId : String) :
    HistoryUserMessage :=
  let folded := buffer.foldl mergeUserStep ([], [], [])
  let mergedContent := String.intercalate "\n" folded.1
  { userInputMessage :=
    { content := if ¬folded.2.2.isEmpty then "" else mergedContent,
      images := folded.2.1,
      modelId := modelId,
      origin := "AI_EDITOR",
      userInputMessageContext := { tools := [], toolResults := folded.2.2 } } }

/-- The history-assistant entry built from an assistant message. -/
def buildAssistantEntry (msg : AnthropicRequestMessage) : HistoryAssistantMessage :=
  { content := GetMessageContent msg.content,
    toolUses := extractToolUsesFromMessage msg.content }

/-- Merging an orphan assistant message into the preceding assistant entry. -/
def mergeAssistantEntry (lastAssistant : HistoryAssistantMessage)
    (msg : AnthropicRequestMessage) : HistoryAssistantMessage :=
  let additionalContent := GetMessageContent msg.content
  { content :=
      if additionalContent ≠ "" then
        if lastAssistant.content ≠ "" then
          lastAssistant.content ++ "\n" ++ additionalContent
        else additionalContent
      else lastAssistant.content,
    toolUses := lastAssistant.toolUses ++ extractToolUsesFromMessage msg.content }

/-- One iteration of the history-folding loop: state is the history built
so far and the buffer of consecutive user messages. -/
def histStep (modelId : String)
    (st : List HistoryEntry × List AnthropicRequestMessage)
    (msg : AnthropicRequestMessage) :
    List HistoryEntry × List AnthropicRequestMessage :=
  if msg.role = "user" then (st.1, st.2 ++ [msg])
  else if msg.role = "assistant" then
    if ¬st.2.isEmpty then
      (st.1 ++ [.user (mergeUserMessages st.2 modelId), .assistant (buildAssistantEntry msg)],
       [])
    else if ¬st.1.isEmpty then
      match st.1.getLast? with
      | some (.assistant a) =>
        (st.1.dropLast ++ [.assistant (mergeAssistantEntry a msg)], st.2)
      | _ => (st.1, st.2)
    else (st.1, st.2)
  else (st.1, st.2)

/-- The assembled history: fold the history slice, then pair any leftover
user buffer with a synthetic `"OK"` assistant turn. -/
def buildHistory (slice : List AnthropicRequestMessage) (modelId : String) :
    List HistoryEntry :=
  let r := slice.foldl (histStep modelId) ([], [])
  if ¬r.2.isEmpty then
    r.1 ++ [.user (mergeUserMessages r.2 modelId), .assistant { content := "OK", toolUses := [] }]
  else r.1

/-- `validateCodeWhispererRequest`: placeholder injection for tool-only
requests and the final emptiness check; returns the possibly updated
request (the Go code mutates through the pointer). -/
def validateCodeWhispererRequest (cw : CodeWhispererRequest) :
    CodeWhispererRequest × Option String :=
  if cw.conversationState.currentMessage.userInputMessage.modelId = "" then
    (cw, some "ModelId empty")
  else if cw.conversationState.conversationId = "" then
    (cw, some "ConversationId empty")
  else
    let trimmedContent := goTrimSpace cw.conversationState.currentMessage.userInputMessage.content
    let hasImages := ¬cw.conversationState.currentMessage.userInputMessage.images.isEmpty
    let hasTools :=
      ¬cw.conversationState.currentMessage.userInputMessage.userInputMessageContext.tools.isEmpty
    let hasToolResults :=
      ¬cw.conversationState.currentMessage.userInputMessage.userInputMessageContext.toolResults.isEmpty
    if hasToolResults then (cw, none)
    else
      let injected := trimmedContent = "" ∧ ¬hasImages ∧ hasTools
      let cw' := if injected then
          { cw with conversationState := { cw.conversationState with
              currentMessage := { userInputMessage := { cw.conversationState.currentMessage.userInputMessage with
                content := "执行工具任务" } } } }
        else cw
      let trimmed' := if injected then "执行工具任务" else trimmedContent
      if trimmed' = "" ∧ ¬hasImages then (cw', some "content and images empty")
      else (cw', none)

/-- `BuildCodeWhispererRequest` from `src/config/constants.go`.  The
conversation id (derived from the gin context or a fresh UUID) is passed in
as `convId`.  Mirrors the Go control flow: current-message assembly with
the `<system_mode>` wrapper, tool-result override, model-map passthrough,
tool filtering and description truncation with verbatim schemas, history
folding, inference config, final validation.  Returns the (possibly
partially built) request and the error, as the Go function does. -/
def BuildCodeWhispererRequest (req : AnthropicRequest) (convId : String) :
    CodeWhispererRequest × Option String :=
  let base : CodeWhispererRequest :=
    { conversationState := { chatTriggerType := determineChatTriggerType req,
                             conversationId := convId } }
  match req.messages.getLast? with
  | none => (base, some "message list empty")
  | some lastMessage =>
    let (textContent, images) := processMessageContent lastMessage.content
    let enhancedSystemPrompt := buildEnhancedSystemPrompt req
    let finalContent :=
      if enhancedSystemPrompt ≠ "" then
        "<system_mode>" ++ enhancedSystemPrompt ++ "</system_mode>\n\n" ++ textContent
      else textContent
    let toolResults :=
      if lastMessage.role = "user" then extractToolResultsFromMessage lastMessage.content
      else []
    let contentAfterToolResults :=
      if lastMessage.role = "user" ∧ ¬toolResults.isEmpty then
        if enhancedSystemPrompt ≠ "" then
          "<system_mode>" ++ enhancedSystemPrompt ++ "</system_mode>"
        else ""
      else finalContent
    let m0 := (lookupA ModelMap req.model).getD ""
    let modelId := if m0 = "" then req.model else m0
    let tools := req.tools.filterMap fun tool =>
      if tool.name = "" then none
      else if tool.name = "web_search" ∨ tool.name = "websearch" then none
      else some
        { name := tool.name,
          description :=
            if tool.description.length > MaxToolDescriptionLength then
              goTake tool.description MaxToolDescriptionLength
            else tool.description,
          inputSchemaJson := tool.inputSchema }
    let history :=
      if req.messages.length > 1 ∨ ¬req.tools.isEmpty then
        let historyEndIndex :=
          if lastMessage.role = "assistant" then req.messages.length
          else req.messages.length - 1
        buildHistory (req.messages.take historyEndIndex) modelId
      else []
    let cw : CodeWhispererRequest :=
      { conversationState :=
        { chatTriggerType := determineChatTriggerType req,
          conversationId := convId,
          currentMessage :=
          { userInputMessage :=
            { content := contentAfterToolResults,
              images := images,
              modelId := modelId,
              origin := "AI_EDITOR",
              userInputMessageContext :=
                { tools := if ¬req.tools.isEmpty then tools else [],
                  toolResults := toolResults } } },
          history := history },
        inferenceConfig :=
          if req.maxTokens > 0 then
            some { maxTokens := req.maxTokens, temperature := req.temperature }
          else none }
    validateCodeWhispererRequest cw

/-! ## Tool schema cleaner (`src/converter/tools.go`, package `converter`) -/

/-- The deterministic rename of over-long property keys in
`cleanAndValidateToolParameters`. -/
def cleanParamName (paramName : String) : String :=
  if paramName.length > 64 then
    if paramName.length > 80 then
      goTake paramName 20 ++ "_" ++ goDrop paramName (paramName.length - 20)
    else goTake paramName 30 ++ "_param"
  else paramName

/-- The removal of the non-portable top-level keys
(`cleanAndValidateToolParameters`, first block of deletes). -/
def removeUnsupportedKeys (params : List (String × JValue)) : List (String × JValue) :=
  eraseA (eraseA (eraseA (eraseA (eraseA (eraseA (eraseA params
    "additionalProperties") "strict") "$schema") "$id") "$ref") "definitions") "$defs"

/-- The over-long property-key rename block of
`cleanAndValidateToolParameters`, applied to `properties` and mirrored on
`required`. -/
def renameLongParamNames (m : List (String × JValue)) : List (String × JValue) :=
  match lookupA m "properties" with
  | some (.jobj props) =>
    let cleanedProperties := props.map fun kv => (cleanParamName kv.1, kv.2)
    let t : List (String × JValue) := setA m "properties" (.jobj cleanedProperties)
    match lookupA t "required" with
    | some (.jarr reqs) =>
      let cleanedRequired := reqs.filterMap fun r =>
        match r with
        | .jstr s => some (JValue.jstr (cleanParamName s))
        | _ => none
      setA t "required" (.jarr cleanedRequired)
    | _ => t
  | _ => m

/-- Ensure a top-level `type: object` when no `type` is present. -/
def ensureObjectType (m : List (String × JValue)) : List (String × JValue) :=
  if (lookupA m "type").isNone then setA m "type" (.jstr "object") else m

/-- Whether the schema declares `type: object`. -/
def typeIsObjectB (m : List (String × JValue)) : Bool :=
  match lookupA m "type" with
  | some (.jstr s) => s == "object"
  | _ => false

/-- Coerce `required` to an array of non-empty strings; a non-array value
is dropped, a JSON null is left in place (the Go code skips `nil`). -/
def coerceRequired (m : List (String × JValue)) : List (String × JValue) :=
  match lookupA m "required" with
  | some .jnull => m
  | some (.jarr arr) =>
    setA m "required" (.jarr (arr.filterMap fun v =>
      match v with
      | .jstr s => if s ≠ "" then some (JValue.jstr s) else none
      | _ => none))
  | some _ => eraseA m "required"
  | none => m

/-- Coerce `properties` to an object. -/
def coerceProperties (m : List (String × JValue)) : List (String × JValue) :=
  match lookupA m "properties" with
  | some (.jobj _) => m
  | some _ => setA m "properties" (.jobj [])
  | none => setA m "properties" (.jobj [])

/-- `cleanAndValidateToolParameters` from `src/converter/tools.go`: drop
the non-portable keys, rename over-long property keys (and the `required`
list alongside), ensure a top-level `type: object`, reject an object
schema without `properties`, then coerce `required` and `properties`.
The deep copy through the JSON round-trip is the identity here. -/
def cleanAndValidateToolParameters (params : List (String × JValue)) :
    Except String (List (String × JValue)) :=
  let t2 := ensureObjectType (renameLongParamNames (removeUnsupportedKeys params))
  if typeIsObjectB t2 ∧ (lookupA t2 "properties").isNone then
    .error "object schema lacks properties"
  else
    .ok (coerceProperties (coerceRequired t2))

/-! ## `/v1/messages` request admission (`src/server/middleware.go`,
`StartServer`) -/

/-- The handler's decision before any CodeWhisperer call. -/
inductive HandlerDecision
  | reject (status : Nat)
  | proceed
deriving DecidableEq, Repr

/-- The validation prefix of the `POST /v1/messages` handler
(`src/server/middleware.go` lines 383-402): empty message list, then the
last message's extracted text after trimming must be neither empty nor the
literal `"answer for user question"`; a violation is rejected with 400
before the upstream request is built. -/
def messagesHandlerPrecheck (req : AnthropicRequest) : HandlerDecision :=
  match req.messages.getLast? with
  | none => .reject 400
  | some lastMsg =>
    let content := GetMessageContent lastMsg.content
    let trimmedContent := goTrimSpace content
    if trimmedContent = "" ∨ trimmedContent = "answer for user question" then .reject 400
    else .proceed

/-! ## Projections of the built request -/

def cwTools (cw : CodeWhispererRequest) : List CodeWhispererTool :=
  cw.conversationState.currentMessage.userInputMessage.userInputMessageContext.tools

def cwToolResults (cw : CodeWhispererRequest) : List ToolResult :=
  cw.conversationState.currentMessage.userInputMessage.userInputMessageContext.toolResults

def cwContent (cw : CodeWhispererRequest) : String :=
  cw.conversationState.currentMessage.userInputMessage.content

def cwHistory (cw : CodeWhispererRequest) : List HistoryEntry :=
  cw.conversationState.history

/-- The alternation shape the translator maintains on history: a sequence
of (user, assistant) pairs. -/
def alternatingB : List HistoryEntry -> Bool
  | [] => true
  | .user _ :: .assistant _ :: rest => alternatingB rest
  | _ => false

/-! ## SSE re-emitter state machine

Modelled from the spec: the stream processor and SSE state manager
(`stream_processor.go`, `sse_state_manager.go`) are not under `src/`.
§4.3 fixes the per-request state (open blocks, ping-once flag, next index)
and the event handling: a text chunk opens a text block when none is open
(`content_block_start`, then `ping` if not yet sent) and emits a
`text_delta`; a tool-use begin closes any open text block and opens a tool
block; fragments emit `input_json_delta`; tool-use end closes the block;
finalization closes any still-open blocks and emits `message_delta` then
`message_stop`.  Only the emitted event types are tracked. -/

inductive UpstreamEvent
  | textChunk (s : String)
  | toolUseBegin (id name : String)
  | toolUseFragment (id s : String)
  | toolUseEnd (id : String)
deriving DecidableEq, Repr

inductive SSEType
  | messageStart
  | contentBlockStart
  | ping
  | contentBlockDelta
  | contentBlockStop
  | messageDelta
  | messageStop
deriving DecidableEq, Repr

structure SMState where
  nextIdx : Nat := 0
  openText : Option Nat := none
  openTools : List (String × Nat) := []
  pingSent : Bool := false
deriving DecidableEq, Repr

/-- `content_block_start`, followed by the one-time `ping`. -/
def emitStart (st : SMState) : List SSEType :=
  if st.pingSent then [.contentBlockStart] else [.contentBlockStart, .ping]

/-- One upstream event processed against the state. -/
def smStep (st : SMState) : UpstreamEvent → SMState × List SSEType
  | .textChunk _ =>
    match st.openText with
    | some _ => (st, [.contentBlockDelta])
    | none =>
      ({ st with openText := some st.nextIdx, nextIdx := st.nextIdx + 1, pingSent := true },
       emitStart st ++ [.contentBlockDelta])
  | .toolUseBegin id _ =>
    let closes : List SSEType := match st.openText with
      | some _ => [.contentBlockStop]
      | none => []
    let st1 := { st with openText := none }
    ({ st1 with
        openTools := (id, st1.nextIdx) :: st1.openTools,
        nextIdx := st1.nextIdx + 1,
        pingSent := true },
     closes ++ emitStart st)
  | .toolUseFragment id _ =>
    match lookupA st.openTools id with
    | some _ => (st, [.contentBlockDelta])
    | none => (st, [])
  | .toolUseEnd id =>
    match lookupA st.openTools id with
    | some _ => ({ st with openTools := eraseA st.openTools id }, [.contentBlockStop])
    | none => (st, [])

/-- The body of the stream: fold the upstream events, accumulating emitted
event types. -/
def smBody (st : SMState) : List UpstreamEvent → SMState × List SSEType
  | [] => (st, [])
  | ev :: evs =>
    let r := smStep st ev
    let rest := smBody r.1 evs
    (rest.1, r.2 ++ rest.2)

/-- Finalization: close any still-open blocks. -/
def smFinalize (st : SMState) : List SSEType :=
  (match st.openText with
   | some _ => [SSEType.contentBlockStop]
   | none => []) ++ st.openTools.map (fun _ => SSEType.contentBlockStop)

/-- The full emitted event-type sequence for a successful streaming
response: `message_start`, the body, the belt-and-braces closes, then
`message_delta` and `message_stop`. -/
def smRun (evs : List UpstreamEvent) : List SSEType :=
  let r := smBody {} evs
  .messageStart :: (r.2 ++ smFinalize r.1 ++ [.messageDelta, .messageStop])

/-- Well-formedness of the upstream event order: a new block (text chunk or
tool-use begin) only starts when no tool block is open, which holds for the
one-tool-at-a-time CodeWhisperer streams.  Fragments and ends for unknown
ids are harmless and unconstrained. -/
def admissibleB : SMState → List UpstreamEvent → Bool
  | _, [] => true
  | st, ev :: evs =>
    (match ev with
     | .textChunk _ => st.openTools.isEmpty
     | .toolUseBegin _ _ => st.openTools.isEmpty
     | _ => true)
    && admissibleB (smStep st ev).1 evs

/-- The Claude SSE protocol automaton for the regular expression
`message_start (content_block_start ping? content_block_delta* content_block_stop)*
message_delta message_stop`, with the ping admitted exactly once, right
after the first `content_block_start`. -/
inductive CK
  | start
  | mid (pingDone : Bool)
  | blk (pingDone canPing : Bool)
  | fin
  | done
  | rej
deriving DecidableEq, Repr

def ckStep : CK → SSEType → CK
  | .start, .messageStart => .mid false
  | .mid p, .contentBlockStart => .blk p (!p)
  | .mid _, .messageDelta => .fin
  | .blk _ c, .ping => if c then .blk true false else .rej
  | .blk p _, .contentBlockDelta => .blk p false
  | .blk p _, .contentBlockStop => .mid p
  | .fin, .messageStop => .done
  | _, _ => .rej

/-- Run the automaton over an emitted sequence. -/
def ckRun (evs : List SSEType) : CK := evs.foldl ckStep .start

/-- `true` when the element right after the first `content_block_start`, if
any, is the `ping`. -/
def pingAfterFirstStart : List SSEType → Bool
  | [] => true
  | .contentBlockStart :: rest => rest.head? == some .ping
  | _ :: rest => pingAfterFirstStart rest

def countPings (evs : List SSEType) : Nat :=
  evs.countP (· == SSEType.ping)

def hasStart (evs : List SSEType) : Bool :=
  evs.any (· == SSEType.contentBlockStart)

/-- The automaton state a well-formed emitter state corresponds to: an
open block puts the automaton mid-block (ping long since emitted), a
quiescent state puts it between blocks. -/
def encodeCK (st : SMState) : CK :=
  if st.openText.isSome || !st.openTools.isEmpty then .blk true false
  else .mid st.pingSent

/-- Structural invariant of the emitter state: never a text block and a
tool block open together, at most one tool block, and an open block means
the ping was already sent. -/
def smWFB (st : SMState) : Bool :=
  (!st.openText.isSome || st.openTools.isEmpty)
  && decide (st.openTools.length ≤ 1)
  && (!(st.openText.isSome || !st.openTools.isEmpty) || st.pingSent)

end Kiro

namespace Kiro

/-! ## Theorems -/

set_option maxRecDepth 10000 in
/-- Sanity check: the SHA-256 embedding reproduces the standard test vector
for `"abc"`. -/
theorem sha256Hash_abc :
    sha256Hash "abc" = "ba7816bf8f01cfea414140de5dae2223b00361a396177a9cb410ff61f20015ad" := by
  decide

set_option maxRecDepth 10000 in
/-- Sanity check: the SHA-256 embedding reproduces the standard test vector
for the empty string. -/
theorem sha256Hash_empty :
    sha256Hash "" = "e3b0c44298fc1c149afbf4c8996fb92427ae41e4649b934ca495991b7852b855" := by
  decide

theorem lookupA_eraseA_self {α : Type} (m : List (String × α)) (k : String) :
    lookupA (eraseA m k) k = none := by
  induction m with
  | nil => rfl
  | cons hd tl ih =>
    obtain ⟨k', v⟩ := hd
    by_cases h : k' = k <;> simp [eraseA, lookupA, h, ih]

theorem lookupA_eraseA_ne {α : Type} (m : List (String × α)) (k k' : String) (h : k' ≠ k) :
    lookupA (eraseA m k) k' = lookupA m k' := by
  induction m with
  | nil => rfl
  | cons hd tl ih =>
    obtain ⟨k0, v⟩ := hd
    by_cases h0 : k0 = k
    · subst h0
      have hkk : ¬(k0 = k') := fun hh => h hh.symm
      simp [eraseA, lookupA, hkk, ih]
    · by_cases h1 : k0 = k'
      · simp [eraseA, lookupA, h, h0, h1]
      · simp [eraseA, lookupA, h0, h1, ih]

theorem lookupA_setA_self {α : Type} (m : List (String × α)) (k : String) (v : α) :
    lookupA (setA m k v) k = some v := by
  simp [setA, lookupA]

theorem calculateExpTime_eq (now : Nat) (ttl : String) :
    calculateExpTime now ttl = now + (if ttl = "1h" then 3600 else 300) := by
  by_cases h : ttl = "1h" <;> simp [calculateExpTime, h]

theorem parseToken_classification_and_cache_key (token accessToken : String)
    (m : TokenMap) (now : Nat) :
    ((ParseToken token).tokenType = .amazonQ ↔
      ∃ p0 p1 p2, splitNColon3 token = [p0, p1, p2] ∧ p0 ≠ "" ∧ p2 ≠ "")
    ∧ (∀ p0 p1 p2, splitNColon3 token = [p0, p1, p2] → p0 ≠ "" → p2 ≠ "" →
        ParseToken token = ⟨.amazonQ, p0, p1, p2⟩)
    ∧ ((ParseToken token).tokenType = .kiro →
        ParseToken token = ⟨.kiro, "", "", token⟩)
    ∧ (lookupMap m (sha256Hash token) = none →
        lookupMap (GetOrRefreshToken m token (.ok accessToken) now).newMap (sha256Hash token) =
          some ⟨accessToken, (ParseToken token).refreshToken, now, (ParseToken token).tokenType,
            (ParseToken token).clientID, (ParseToken token).clientSecret⟩) := by
  have hchar : ∀ p0 p1 p2, splitNColon3 token = [p0, p1, p2] → p0 ≠ "" → p2 ≠ "" →
      ParseToken token = ⟨.amazonQ, p0, p1, p2⟩ := by
    intro p0 p1 p2 hq hq0 hq2
    simp [ParseToken, hq, hq0, hq2]
  have hkiro : (ParseToken token).tokenType = .kiro →
      ParseToken token = ⟨.kiro, "", "", token⟩ := by
    intro hk
    unfold ParseToken at hk ⊢
    rcases hsp : splitNColon3 token with _ | ⟨p0, _ | ⟨p1, _ | ⟨p2, _ | ⟨p3, ps⟩⟩⟩⟩ <;>
      rw [hsp] at hk <;> (try simp only at hk ⊢) <;> try rfl
    by_cases hc : p0 ≠ "" ∧ p2 ≠ ""
    · simp [if_pos hc] at hk
    · rw [if_neg hc]
  refine ⟨⟨?_, ?_⟩, hchar, hkiro, ?_⟩
  · intro hA
    unfold ParseToken at hA
    rcases hsp : splitNColon3 token with _ | ⟨p0, _ | ⟨p1, _ | ⟨p2, _ | ⟨p3, ps⟩⟩⟩⟩ <;>
      rw [hsp] at hA <;> simp only at hA
    · simp at hA
    · simp at hA
    · simp at hA
    · by_cases hc : p0 ≠ "" ∧ p2 ≠ ""
      · exact ⟨p0, p1, p2, rfl, hc.1, hc.2⟩
      · simp [if_neg hc] at hA
    · simp at hA
  · rintro ⟨p0, p1, p2, hq, hq0, hq2⟩
    rw [hchar p0 p1 p2 hq hq0 hq2]
  · intro hnone
    simp only [GetOrRefreshToken, lookupMap] at hnone ⊢
    rw [hnone]
    simp [lookupA]


theorem tokenCache_hit_and_403_invalidation (m : TokenMap) (token : String)
    (e : TokenCacheEntry) (out : Except String String) (now : Nat) :
    (lookupMap m (sha256Hash token) = some e →
      GetOrRefreshToken m token out now = ⟨.ok e.accessToken, m, .noCall⟩)
    ∧ handleCodeWhispererErrorTokenMap m 403 token = InvalidateToken m token
    ∧ lookupMap (InvalidateToken m token) (sha256Hash token) = none
    ∧ (∀ k, k ≠ sha256Hash token →
        lookupMap (InvalidateToken m token) k = lookupMap m k)
    ∧ (GetOrRefreshToken (InvalidateToken m token) token out now).call ≠ .noCall := by
  refine ⟨?_, rfl, lookupA_eraseA_self m _, ?_, ?_⟩
  · intro h
    simp only [GetOrRefreshToken, lookupMap] at h ⊢
    rw [h]
  · intro k hk
    exact lookupA_eraseA_ne m _ k hk
  · have hnone : lookupA (eraseA m (sha256Hash token)) (sha256Hash token) = none :=
      lookupA_eraseA_self m _
    simp only [GetOrRefreshToken, InvalidateToken, lookupMap, eraseMap]
    rw [hnone]
    rcases htt : (ParseToken token).tokenType <;> rcases out <;> simp [htt]

theorem promptCacheGet_none_lookup (pc : PromptCacheMap) (hash : String) (now : Nat)
    (h : (promptCacheGet pc hash now).1 = none) :
    lookupCache (promptCacheGet pc hash now).2 hash = none := by
  simp only [promptCacheGet] at h ⊢
  rcases hl : lookupCache pc hash with _ | e
  · simpa [lookupCache] using hl
  · simp only [hl] at h ⊢
    by_cases hexp : now > e.expTime
    · simp only [if_pos hexp]
      exact lookupA_eraseA_self pc hash
    · simp [if_neg hexp] at h

theorem promptCache_accounting (pc : PromptCacheMap) (hash : String) (tokens : Nat)
    (cc : Option CacheControl) (r : CacheResult) (now : Nat) (e : CacheEntry) :
    (lookupCache pc hash = some e → ¬now > e.expTime →
      (processContentBlock pc hash tokens cc r now).2 =
        { r with cacheReadTokens := r.cacheReadTokens + e.tokens }
      ∧ lookupCache (processContentBlock pc hash tokens cc r now).1 hash =
          some { e with expTime := now + (if e.ttl = "1h" then 3600 else 300) })
    ∧ ((promptCacheGet pc hash now).1 = none → ∀ c, cc = some c → c.type = "ephemeral" →
      (processContentBlock pc hash tokens cc r now).2 =
        { r with cacheCreationTokens := r.cacheCreationTokens + tokens }
      ∧ lookupCache (processContentBlock pc hash tokens cc r now).1 hash =
          some ⟨tokens,
            now + (if (if c.ttl = "" then "5m" else c.ttl) = "1h" then 3600 else 300),
            if c.ttl = "" then "5m" else c.ttl⟩)
    ∧ ((promptCacheGet pc hash now).1 = none →
        (∀ c, cc = some c → c.type ≠ "ephemeral") →
      (processContentBlock pc hash tokens cc r now).2 = r
      ∧ lookupCache (processContentBlock pc hash tokens cc r now).1 hash = none) := by
  refine ⟨?_, ?_, ?_⟩
  · intro hl hexp
    simp only [processContentBlock, promptCacheGet, hl, if_neg hexp, calculateExpTime_eq]
    exact ⟨trivial, lookupA_setA_self pc hash _⟩
  · intro hnone c hcc hctype
    subst hcc
    rcases hres : promptCacheGet pc hash now with ⟨o, pc'⟩
    rw [hres] at hnone
    simp only at hnone
    subst hnone
    simp only [processContentBlock, hres, hctype, beq_self_eq_true, if_true,
      promptCacheSet, calculateExpTime_eq]
    exact ⟨trivial, lookupA_setA_self pc' hash _⟩
  · intro hnone hno
    have hlook := promptCacheGet_none_lookup pc hash now hnone
    rcases hres : promptCacheGet pc hash now with ⟨o, pc'⟩
    rw [hres] at hnone hlook
    simp only at hnone hlook
    subst hnone
    rcases cc with _ | c
    · simp only [processContentBlock, hres]
      exact ⟨rfl, hlook⟩
    · have hbc : (c.type == "ephemeral") = false := by
        simpa using hno c rfl
      simp only [processContentBlock, hres, hbc, Bool.false_eq_true, if_false]
      exact ⟨trivial, hlook⟩


theorem parseToken_classification_and_cache_key_witness :
    ParseToken "abc:xyz:rt-123" = ⟨.amazonQ, "abc", "xyz", "rt-123"⟩
    ∧ lookupMap (GetOrRefreshToken [] "abc:xyz:rt-123" (.ok "AT") 0).newMap
        (sha256Hash "abc:xyz:rt-123") =
      some ⟨"AT", (ParseToken "abc:xyz:rt-123").refreshToken, 0,
        (ParseToken "abc:xyz:rt-123").tokenType,
        (ParseToken "abc:xyz:rt-123").clientID,
        (ParseToken "abc:xyz:rt-123").clientSecret⟩ :=
  ⟨(parseToken_classification_and_cache_key "abc:xyz:rt-123" "AT" [] 0).2.1
      "abc" "xyz" "rt-123" (by decide) (by decide) (by decide),
   (parseToken_classification_and_cache_key "abc:xyz:rt-123" "AT" [] 0).2.2.2 rfl⟩

theorem tokenCache_hit_and_403_invalidation_witness :
    GetOrRefreshToken [(sha256Hash "tok", ⟨"AT", "tok", 0, .kiro, "", ""⟩)] "tok"
        (.ok "fresh") 7 =
      ⟨.ok "AT", [(sha256Hash "tok", ⟨"AT", "tok", 0, .kiro, "", ""⟩)], .noCall⟩
    ∧ lookupMap (InvalidateToken [(sha256Hash "tok", ⟨"AT", "tok", 0, .kiro, "", ""⟩)] "tok")
        (sha256Hash "tok") = none
    ∧ (GetOrRefreshToken
        (InvalidateToken [(sha256Hash "tok", ⟨"AT", "tok", 0, .kiro, "", ""⟩)] "tok")
        "tok" (.ok "fresh") 7).call ≠ .noCall :=
  ⟨(tokenCache_hit_and_403_invalidation
      [(sha256Hash "tok", ⟨"AT", "tok", 0, .kiro, "", ""⟩)] "tok"
      ⟨"AT", "tok", 0, .kiro, "", ""⟩ (.ok "fresh") 7).1 (by simp [lookupMap, lookupA]),
   (tokenCache_hit_and_403_invalidation
      [(sha256Hash "tok", ⟨"AT", "tok", 0, .kiro, "", ""⟩)] "tok"
      ⟨"AT", "tok", 0, .kiro, "", ""⟩ (.ok "fresh") 7).2.2.1,
   (tokenCache_hit_and_403_invalidation
      [(sha256Hash "tok", ⟨"AT", "tok", 0, .kiro, "", ""⟩)] "tok"
      ⟨"AT", "tok", 0, .kiro, "", ""⟩ (.ok "fresh") 7).2.2.2.2⟩

theorem promptCache_accounting_witness :
    ((processContentBlock [("h", ⟨7, 100, "1h"⟩)] "h" 5 none ⟨0, 0, 0⟩ 50).2 =
        { totalTokens := 0, cacheCreationTokens := 0, cacheReadTokens := 7 }
      ∧ lookupCache (processContentBlock [("h", ⟨7, 100, "1h"⟩)] "h" 5 none ⟨0, 0, 0⟩ 50).1 "h" =
          some ⟨7, 3650, "1h"⟩)
    ∧ ((processContentBlock [] "h" 5 (some ⟨"ephemeral", ""⟩) ⟨0, 0, 0⟩ 50).2 =
        { totalTokens := 0, cacheCreationTokens := 5, cacheReadTokens := 0 }
      ∧ lookupCache (processContentBlock [] "h" 5 (some ⟨"ephemeral", ""⟩) ⟨0, 0, 0⟩ 50).1 "h" =
          some ⟨5, 350, "5m"⟩)
    ∧ ((processContentBlock [] "h" 5 none ⟨0, 0, 0⟩ 50).2 = ⟨0, 0, 0⟩
      ∧ lookupCache (processContentBlock [] "h" 5 none ⟨0, 0, 0⟩ 50).1 "h" = none) := by
  refine ⟨?_, ?_, ?_⟩
  · have h := (promptCache_accounting [("h", ⟨7, 100, "1h"⟩)] "h" 5 none ⟨0, 0, 0⟩ 50
      ⟨7, 100, "1h"⟩).1 (by decide) (by decide)
    simpa using h
  · have h := (promptCache_accounting [] "h" 5 (some ⟨"ephemeral", ""⟩) ⟨0, 0, 0⟩ 50
      ⟨0, 0, ""⟩).2.1 (by decide) ⟨"ephemeral", ""⟩ rfl rfl
    simpa using h
  · have h := (promptCache_accounting [] "h" 5 none ⟨0, 0, 0⟩ 50 ⟨0, 0, ""⟩).2.2
      (by decide) (by rintro c ⟨⟩)
    simpa using h

end Kiro
namespace Kiro

theorem readU32_append (l l' : List Nat) (h : 4 ≤ l.length) :
    readU32 (l ++ l') = readU32 l := by
  unfold readU32
  rw [List.getD_append _ _ _ _ (by omega), List.getD_append _ _ _ _ (by omega),
    List.getD_append _ _ _ _ (by omega), List.getD_append _ _ _ _ (by omega)]

theorem drainLoop_append (buf extra : List Nat) :
    drainLoop (buf ++ extra) =
      ((drainLoop buf).1 ++ (drainLoop ((drainLoop buf).2.1 ++ extra)).1,
       (drainLoop ((drainLoop buf).2.1 ++ extra)).2.1,
       (drainLoop buf).2.2 + (drainLoop ((drainLoop buf).2.1 ++ extra)).2.2) := by
  induction buf using drainLoop.induct with
  | case1 buf h16 =>
    rw [drainLoop.eq_def buf]
    simp only [if_pos h16]
    simp
  | case2 buf h16 himpl ih =>
    have hlen : 16 ≤ buf.length := by
      simpa [EventStreamMinMessageSize] using Nat.le_of_not_lt h16
    have h16' : ¬ (buf ++ extra).length < EventStreamMinMessageSize := by
      simp only [List.length_append, EventStreamMinMessageSize] at *
      omega
    have hread : readU32 (buf ++ extra) = readU32 buf :=
      readU32_append buf extra (by omega)
    have hdrop : (buf ++ extra).drop 1 = buf.drop 1 ++ extra :=
      List.drop_append_of_le_length (by omega)
    rw [drainLoop.eq_def (buf ++ extra), if_neg h16', hread, if_pos himpl, hdrop, ih]
    rw [drainLoop.eq_def buf, if_neg h16, if_pos himpl]
    simp only [consErr, Prod.mk.injEq]
    exact ⟨trivial, trivial, by omega⟩
  | case3 buf h16 himpl hlt =>
    rw [drainLoop.eq_def buf, if_neg h16, if_neg himpl, if_pos hlt]
    simp
  | case4 buf h16 himpl hlt m hm ih =>
    have hlen : 16 ≤ buf.length := by
      simpa [EventStreamMinMessageSize] using Nat.le_of_not_lt h16
    have hle : readU32 buf ≤ buf.length := Nat.le_of_not_lt hlt
    have h16' : ¬ (buf ++ extra).length < EventStreamMinMessageSize := by
      simp only [List.length_append, EventStreamMinMessageSize] at *
      omega
    have hread : readU32 (buf ++ extra) = readU32 buf :=
      readU32_append buf extra (by omega)
    have hlt' : ¬ (buf ++ extra).length < readU32 buf := by
      simp only [List.length_append]
      omega
    have htake : (buf ++ extra).take (readU32 buf) = buf.take (readU32 buf) :=
      List.take_append_of_le_length hle
    have hdrop : (buf ++ extra).drop (readU32 buf) = buf.drop (readU32 buf) ++ extra :=
      List.drop_append_of_le_length hle
    rw [drainLoop.eq_def (buf ++ extra), if_neg h16', hread, if_neg himpl, if_neg hlt',
      htake, hm, hdrop, ih]
    rw [drainLoop.eq_def buf, if_neg h16, if_neg himpl, if_neg hlt, hm]
    simp [consMsg]
  | case5 buf h16 himpl hlt hm ih =>
    have hlen : 16 ≤ buf.length := by
      simpa [EventStreamMinMessageSize] using Nat.le_of_not_lt h16
    have hle : readU32 buf ≤ buf.length := Nat.le_of_not_lt hlt
    have h16' : ¬ (buf ++ extra).length < EventStreamMinMessageSize := by
      simp only [List.length_append, EventStreamMinMessageSize] at *
      omega
    have hread : readU32 (buf ++ extra) = readU32 buf :=
      readU32_append buf extra (by omega)
    have hlt' : ¬ (buf ++ extra).length < readU32 buf := by
      simp only [List.length_append]
      omega
    have htake : (buf ++ extra).take (readU32 buf) = buf.take (readU32 buf) :=
      List.take_append_of_le_length hle
    have hdrop : (buf ++ extra).drop (readU32 buf) = buf.drop (readU32 buf) ++ extra :=
      List.drop_append_of_le_length hle
    rw [drainLoop.eq_def (buf ++ extra), if_neg h16', hread, if_neg himpl, if_neg hlt',
      htake, hm, hdrop, ih]
    rw [drainLoop.eq_def buf, if_neg h16, if_neg himpl, if_neg hlt, hm]
    simp only [consErr, Prod.mk.injEq]
    exact ⟨trivial, trivial, by omega⟩

end Kiro
namespace Kiro

theorem drainLoop_rest (b : List Nat) :
    drainLoop ((drainLoop b).2.1) = ([], (drainLoop b).2.1, 0) := by
  have h := drainLoop_append b []
  rw [List.append_nil, List.append_nil] at h
  have h1 := congrArg Prod.fst h
  have h2 := congrArg (fun p => p.2.1) h
  have h3 := congrArg (fun p => p.2.2) h
  simp only [List.self_eq_append_right, Nat.self_eq_add_right] at h1 h3
  simp only at h2
  calc drainLoop ((drainLoop b).2.1)
      = ((drainLoop ((drainLoop b).2.1)).1, (drainLoop ((drainLoop b).2.1)).2.1,
         (drainLoop ((drainLoop b).2.1)).2.2) := rfl
    _ = ([], (drainLoop b).2.1, 0) := by rw [h1, ← h2, h3]

theorem parseStream_append (st : ParserState) (c extra : List Nat) :
    (ParseStream st (c ++ extra)).1 =
      (ParseStream st c).1 ++ (ParseStream (ParseStream st c).2.1 extra).1
    ∧ (ParseStream st (c ++ extra)).2.1 = (ParseStream (ParseStream st c).2.1 extra).2.1 := by
  simp only [ParseStream, parseStreamWithBuffer]
  rw [← List.append_assoc, drainLoop_append (st.buffer ++ c) extra]
  exact ⟨rfl, by simp only [ParserState.mk.injEq]; exact ⟨trivial, by omega, trivial⟩⟩

theorem feedAll_eq_single_aux (chunks : List (List Nat)) :
    ∀ st : ParserState, drainLoop st.buffer = ([], st.buffer, 0) →
      (feedAll st chunks).1 = (ParseStream st chunks.flatten).1
      ∧ (feedAll st chunks).2 = (ParseStream st chunks.flatten).2.1 := by
  induction chunks with
  | nil =>
    intro st hq
    have h1 : (ParseStream st []).1 = [] := by
      simp [ParseStream, parseStreamWithBuffer, hq]
    have h2 : (ParseStream st []).2.1 = st := by
      simp only [ParseStream, parseStreamWithBuffer, List.append_nil, hq]
      cases st with
      | mk b e mx => simp
    exact ⟨by simp [feedAll, h1], by simp [feedAll, h2]⟩
  | cons c cs ih =>
    intro st hq
    have hquiet : drainLoop (ParseStream st c).2.1.buffer =
        ([], (ParseStream st c).2.1.buffer, 0) := by
      simp only [ParseStream, parseStreamWithBuffer]
      exact drainLoop_rest (st.buffer ++ c)
    obtain ⟨ihm, ihs⟩ := ih (ParseStream st c).2.1 hquiet
    obtain ⟨ham, has⟩ := parseStream_append st c cs.flatten
    constructor
    · show (ParseStream st c).1 ++ (feedAll (ParseStream st c).2.1 cs).1 =
        (ParseStream st (c ++ cs.flatten)).1
      rw [ihm, ham]
    · show (feedAll (ParseStream st c).2.1 cs).2 = (ParseStream st (c ++ cs.flatten)).2.1
      rw [ihs, has]

/-- C9: the frame codec is partition-invariant.  Feeding any chunking of a
byte sequence through `ParseStream` one chunk at a time yields, in feed
order, exactly the messages of feeding the whole sequence in one call. -/
theorem eventStream_partition_invariant (chunks : List (List Nat)) :
    (feedAll NewRobustEventStreamParser chunks).1 =
      (ParseStream NewRobustEventStreamParser chunks.flatten).1 :=
  (feedAll_eq_single_aux chunks NewRobustEventStreamParser (by rw [drainLoop.eq_def]; rfl)).1

end Kiro
namespace Kiro

/-- Counterexample to C3 as stated: feeding sixteen zero bytes (declared
total length 0, implausible) leaves a buffer of 15 bytes — the codec
advanced by one byte, not by the four bytes the claim asserts (which would
leave 12). -/
theorem frameCodec_advance_counterexample :
    (ParseStream NewRobustEventStreamParser
        [0, 0, 0, 0, 0, 0, 0, 0, 0, 0, 0, 0, 0, 0, 0, 0]).1 = []
    ∧ (ParseStream NewRobustEventStreamParser
        [0, 0, 0, 0, 0, 0, 0, 0, 0, 0, 0, 0, 0, 0, 0, 0]).2.1.errorCount = 1
    ∧ (ParseStream NewRobustEventStreamParser
        [0, 0, 0, 0, 0, 0, 0, 0, 0, 0, 0, 0, 0, 0, 0, 0]).2.1.buffer.length = 15
    ∧ ¬(ParseStream NewRobustEventStreamParser
        [0, 0, 0, 0, 0, 0, 0, 0, 0, 0, 0, 0, 0, 0, 0, 0]).2.1.buffer.length = 12 := by
  have hstep : drainLoop [0, 0, 0, 0, 0, 0, 0, 0, 0, 0, 0, 0, 0, 0, 0, 0] =
      ([], [0, 0, 0, 0, 0, 0, 0, 0, 0, 0, 0, 0, 0, 0, 0], 1) := by
    rw [drainLoop.eq_def]
    norm_num [readU32, List.getD, EventStreamMinMessageSize]
    rw [drainLoop.eq_def]
    norm_num [EventStreamMinMessageSize, consErr]
  simp [ParseStream, parseStreamWithBuffer, NewRobustEventStreamParser, hstep]

/-- C3 amended: on an implausible declared length (< 16 or > 16 MiB) the
drain loop advances the buffer by exactly one byte and counts one error; on
a plausible length with insufficient buffered data it returns what was
decoded so far without consuming; and once the accumulated error count is
at the ceiling, the parse call returns the terminal error. -/
theorem frameCodec_malformed_policy (buf : List Nat) (st : ParserState)
    (data : List Nat) :
    (16 ≤ buf.length → readU32 buf < 16 ∨ 16 * 1024 * 1024 < readU32 buf →
      drainLoop buf = consErr (drainLoop (buf.drop 1)))
    ∧ (16 ≤ buf.length → 16 ≤ readU32 buf → readU32 buf ≤ 16 * 1024 * 1024 →
        buf.length < readU32 buf →
      drainLoop buf = ([], buf, 0))
    ∧ (st.maxErrors ≤ (parseStreamWithBuffer st data).2.1.errorCount →
      (parseStreamWithBuffer st data).2.2 = true) := by
  refine ⟨?_, ?_, ?_⟩
  · intro hlen himpl
    rw [drainLoop.eq_def, if_neg (by simp [EventStreamMinMessageSize]; omega),
      if_pos (by simp [EventStreamMinMessageSize, EventStreamMaxMessageSize]; omega)]
  · intro hlen hlo hhi hlt
    rw [drainLoop.eq_def, if_neg (by simp [EventStreamMinMessageSize]; omega),
      if_neg (by simp [EventStreamMinMessageSize, EventStreamMaxMessageSize]; omega),
      if_pos hlt]
  · intro hge
    simp only [parseStreamWithBuffer] at hge ⊢
    simp only [ge_iff_le, if_pos hge]

/-- Witness for the amended C3 on concrete buffers and a saturated state. -/
theorem frameCodec_malformed_policy_witness :
    drainLoop [0, 0, 0, 0, 0, 0, 0, 0, 0, 0, 0, 0, 0, 0, 0, 0] =
      consErr (drainLoop [0, 0, 0, 0, 0, 0, 0, 0, 0, 0, 0, 0, 0, 0, 0])
    ∧ drainLoop [0, 0, 0, 20, 0, 0, 0, 0, 0, 0, 0, 0, 0, 0, 0, 0] =
      ([], [0, 0, 0, 20, 0, 0, 0, 0, 0, 0, 0, 0, 0, 0, 0, 0], 0)
    ∧ (parseStreamWithBuffer ⟨[], 30, 30⟩ []).2.2 = true := by
  refine ⟨?_, ?_, ?_⟩
  · have h := (frameCodec_malformed_policy
      [0, 0, 0, 0, 0, 0, 0, 0, 0, 0, 0, 0, 0, 0, 0, 0] ⟨[], 0, 30⟩ []).1
      (by norm_num) (by norm_num [readU32, List.getD])
    simpa using h
  · have h := (frameCodec_malformed_policy
      [0, 0, 0, 20, 0, 0, 0, 0, 0, 0, 0, 0, 0, 0, 0, 0] ⟨[], 0, 30⟩ []).2.1
      (by norm_num) (by norm_num [readU32, List.getD]) (by norm_num [readU32, List.getD])
      (by norm_num [readU32, List.getD])
    exact h
  · exact (frameCodec_malformed_policy [] ⟨[], 30, 30⟩ []).2.2
      (by
        simp only [parseStreamWithBuffer, List.append_nil]
        rw [drainLoop.eq_def]
        norm_num [EventStreamMinMessageSize])

end Kiro
namespace Kiro

theorem lookupA_setA_ne {α : Type} (m : List (String × α)) (k k' : String) (v : α)
    (h : k' ≠ k) : lookupA (setA m k v) k' = lookupA m k' := by
  simp only [setA, lookupA]
  rw [if_neg (fun hh => h hh.symm)]
  exact lookupA_eraseA_ne m k k' h

theorem renameLongParamNames_lookup_ne (m : List (String × JValue)) (k : String)
    (hp : k ≠ "properties") (hr : k ≠ "required") :
    lookupA (renameLongParamNames m) k = lookupA m k := by
  simp only [renameLongParamNames]
  split
  · split
    · rw [lookupA_setA_ne _ _ _ _ hr, lookupA_setA_ne _ _ _ _ hp]
    · rw [lookupA_setA_ne _ _ _ _ hp]
  · rfl

theorem ensureObjectType_lookup_ne (m : List (String × JValue)) (k : String)
    (ht : k ≠ "type") : lookupA (ensureObjectType m) k = lookupA m k := by
  unfold ensureObjectType
  split
  · exact lookupA_setA_ne _ _ _ _ ht
  · rfl

theorem coerceRequired_lookup_ne (m : List (String × JValue)) (k : String)
    (hr : k ≠ "required") : lookupA (coerceRequired m) k = lookupA m k := by
  simp only [coerceRequired]
  split
  · rfl
  · exact lookupA_setA_ne _ _ _ _ hr
  · exact lookupA_eraseA_ne _ _ _ hr
  · rfl

theorem coerceProperties_lookup_ne (m : List (String × JValue)) (k : String)
    (hp : k ≠ "properties") : lookupA (coerceProperties m) k = lookupA m k := by
  simp only [coerceProperties]
  split
  · rfl
  · exact lookupA_setA_ne _ _ _ _ hp
  · exact lookupA_setA_ne _ _ _ _ hp

theorem clean_lookup_ne (params : List (String × JValue)) (k : String)
    (ht : k ≠ "type") (hp : k ≠ "properties") (hr : k ≠ "required")
    (t : List (String × JValue)) (hok : cleanAndValidateToolParameters params = .ok t) :
    lookupA t k = lookupA (removeUnsupportedKeys params) k := by
  simp only [cleanAndValidateToolParameters] at hok
  split at hok
  · cases hok
  · cases hok
    rw [coerceProperties_lookup_ne _ _ hp, coerceRequired_lookup_ne _ _ hr,
      ensureObjectType_lookup_ne _ _ ht, renameLongParamNames_lookup_ne _ _ hp hr]

end Kiro
namespace Kiro

theorem removeUnsupportedKeys_lookup_none (params : List (String × JValue)) :
    lookupA (removeUnsupportedKeys params) "additionalProperties" = none
    ∧ lookupA (removeUnsupportedKeys params) "strict" = none
    ∧ lookupA (removeUnsupportedKeys params) "$schema" = none
    ∧ lookupA (removeUnsupportedKeys params) "$id" = none
    ∧ lookupA (removeUnsupportedKeys params) "$ref" = none
    ∧ lookupA (removeUnsupportedKeys params) "definitions" = none
    ∧ lookupA (removeUnsupportedKeys params) "$defs" = none := by
  unfold removeUnsupportedKeys
  refine ⟨?_, ?_, ?_, ?_, ?_, ?_, ?_⟩ <;>
    simp [lookupA_eraseA_self, lookupA_eraseA_ne]
theorem cleanParamName_rules (k : String) :
    (k.length ≤ 64 → cleanParamName k = k)
    ∧ (64 < k.length → k.length ≤ 80 → cleanParamName k = goTake k 30 ++ "_param")
    ∧ (80 < k.length → cleanParamName k = goTake k 20 ++ "_" ++ goDrop k (k.length - 20)) := by
  refine ⟨?_, ?_, ?_⟩ <;> intro h <;> unfold cleanParamName
  · rw [if_neg (by omega)]
  · intro h2
    rw [if_pos (by omega), if_neg (by omega)]
  · rw [if_pos (by omega), if_pos (by omega)]

theorem cleanParamName_ne_empty (s : String) (h : s ≠ "") : cleanParamName s ≠ "" := by
  unfold cleanParamName
  split
  · split <;>
      intro heq <;>
      have hlen := congrArg String.length heq <;>
      simp only [String.length_append] at hlen
    · have h1 : "_".length = 1 := rfl
      have h2 : ("" : String).length = 0 := rfl
      omega
    · have h1 : "_param".length = 6 := rfl
      have h2 : ("" : String).length = 0 := rfl
      omega
  · exact h

end Kiro
namespace Kiro

theorem clean_properties_renamed (params : List (String × JValue))
    (props : List (String × JValue)) (t : List (String × JValue))
    (hprops : lookupA (removeUnsupportedKeys params) "properties" = some (.jobj props))
    (hok : cleanAndValidateToolParameters params = .ok t) :
    lookupA t "properties" =
      some (.jobj (props.map fun kv => (cleanParamName kv.1, kv.2))) := by
  have hrn : lookupA (renameLongParamNames (removeUnsupportedKeys params)) "properties" =
      some (.jobj (props.map fun kv => (cleanParamName kv.1, kv.2))) := by
    simp only [renameLongParamNames, hprops]
    split
    · rw [lookupA_setA_ne _ _ _ _ (by decide), lookupA_setA_self]
    · rw [lookupA_setA_self]
  have hens : lookupA (ensureObjectType (renameLongParamNames (removeUnsupportedKeys params)))
      "properties" = some (.jobj (props.map fun kv => (cleanParamName kv.1, kv.2))) := by
    rw [ensureObjectType_lookup_ne _ _ (by decide), hrn]
  simp only [cleanAndValidateToolParameters] at hok
  split at hok
  · cases hok
  · cases hok
    have hcr : lookupA (coerceRequired
        (ensureObjectType (renameLongParamNames (removeUnsupportedKeys params))))
        "properties" = some (.jobj (props.map fun kv => (cleanParamName kv.1, kv.2))) := by
      rw [coerceRequired_lookup_ne _ _ (by decide), hens]
    simp only [coerceProperties, hcr]

theorem filterMap_rename_jstr (names : List String) :
    List.filterMap (fun r =>
        match r with
        | JValue.jstr s => some (JValue.jstr (cleanParamName s))
        | _ => none)
      (names.map JValue.jstr) = names.map fun s => JValue.jstr (cleanParamName s) := by
  induction names with
  | nil => rfl
  | cons hd tl ih => simp [ih]

theorem filterMap_keep_nonempty (names : List String) (hne : ∀ s ∈ names, s ≠ "") :
    List.filterMap (fun v =>
        match v with
        | JValue.jstr s => if s ≠ "" then some (JValue.jstr s) else none
        | _ => none)
      (names.map fun s => JValue.jstr (cleanParamName s)) =
      names.map fun s => JValue.jstr (cleanParamName s) := by
  induction names with
  | nil => rfl
  | cons hd tl ih =>
    have hhd : cleanParamName hd ≠ "" := cleanParamName_ne_empty hd (hne hd (by simp))
    simp only [List.map_cons, List.filterMap_cons]
    rw [if_pos hhd]
    rw [ih (fun s hs => hne s (by simp [hs]))]

theorem clean_required_renamed (params : List (String × JValue))
    (props : List (String × JValue)) (names : List String) (t : List (String × JValue))
    (hprops : lookupA (removeUnsupportedKeys params) "properties" = some (.jobj props))
    (hreq : lookupA (removeUnsupportedKeys params) "required" =
      some (.jarr (names.map JValue.jstr)))
    (hne : ∀ s ∈ names, s ≠ "")
    (hok : cleanAndValidateToolParameters params = .ok t) :
    lookupA t "required" =
      some (.jarr (names.map fun s => JValue.jstr (cleanParamName s))) := by
  have hrn : lookupA (renameLongParamNames (removeUnsupportedKeys params)) "required" =
      some (.jarr (names.map fun s => JValue.jstr (cleanParamName s))) := by
    simp only [renameLongParamNames, hprops]
    have hreq2 : lookupA (setA (removeUnsupportedKeys params) "properties"
        (.jobj (props.map fun kv => (cleanParamName kv.1, kv.2)))) "required" =
        some (.jarr (names.map JValue.jstr)) := by
      rw [lookupA_setA_ne _ _ _ _ (by decide), hreq]
    simp only [hreq2]
    rw [lookupA_setA_self, filterMap_rename_jstr]
  have hens : lookupA (ensureObjectType (renameLongParamNames (removeUnsupportedKeys params)))
      "required" = some (.jarr (names.map fun s => JValue.jstr (cleanParamName s))) := by
    rw [ensureObjectType_lookup_ne _ _ (by decide), hrn]
  simp only [cleanAndValidateToolParameters] at hok
  split at hok
  · cases hok
  · cases hok
    have hcr : lookupA (coerceRequired
        (ensureObjectType (renameLongParamNames (removeUnsupportedKeys params))))
        "required" = some (.jarr (names.map fun s => JValue.jstr (cleanParamName s))) := by
      simp only [coerceRequired, hens]
      rw [lookupA_setA_self, filterMap_keep_nonempty names hne]
    rw [coerceProperties_lookup_ne _ _ (by decide), hcr]

end Kiro
namespace Kiro

theorem validate_preserves_tools_and_history (cw : CodeWhispererRequest) :
    cwTools (validateCodeWhispererRequest cw).1 = cwTools cw
    ∧ cwHistory (validateCodeWhispererRequest cw).1 = cwHistory cw := by
  simp only [validateCodeWhispererRequest, cwTools, cwHistory]
  constructor <;> (repeat' split) <;> rfl

theorem build_tools_verbatim (req : AnthropicRequest) (convId : String)
    (hmsg : ¬req.messages.isEmpty) :
    cwTools (BuildCodeWhispererRequest req convId).1 =
      req.tools.filterMap fun tool =>
        if tool.name = "" then none
        else if tool.name = "web_search" ∨ tool.name = "websearch" then none
        else some
          { name := tool.name,
            description :=
              if tool.description.length > MaxToolDescriptionLength then
                goTake tool.description MaxToolDescriptionLength
              else tool.description,
            inputSchemaJson := tool.inputSchema } := by
  obtain ⟨lm, hlast⟩ : ∃ lm, req.messages.getLast? = some lm := by
    rcases hq : req.messages.getLast? with _ | lm
    · rw [List.getLast?_eq_none_iff] at hq
      exact absurd hq (by simpa [List.isEmpty_iff] using hmsg)
    · exact ⟨lm, rfl⟩
  simp only [BuildCodeWhispererRequest, hlast]
  rw [(validate_preserves_tools_and_history _).1]
  by_cases htools : req.tools.isEmpty
  · have h0 : req.tools = [] := by simpa [List.isEmpty_iff] using htools
    simp [cwTools, h0]
  · simp [cwTools, htools]

end Kiro
namespace Kiro

/-- C4 amended: the schema-normalization routine
`cleanAndValidateToolParameters` removes the non-portable keys and renames
over-long property keys exactly as described (`first20 + "_" + last20`
above 80 characters, `first30 + "_param"` for lengths in (64, 80], keys of
length at most 64 verbatim, the rename mirrored on `required`) — but
`BuildCodeWhispererRequest` never invokes it: every tool sent upstream
carries its declared input schema verbatim (only the description is
truncated and unsupported tool names are dropped). -/
theorem toolSchema_passthrough_and_cleaner (req : AnthropicRequest) (convId : String)
    (params props : List (String × JValue)) (names : List String)
    (k : String) (t : List (String × JValue)) :
    (¬req.messages.isEmpty →
      cwTools (BuildCodeWhispererRequest req convId).1 =
        req.tools.filterMap fun tool =>
          if tool.name = "" then none
          else if tool.name = "web_search" ∨ tool.name = "websearch" then none
          else some
            { name := tool.name,
              description :=
                if tool.description.length > MaxToolDescriptionLength then
                  goTake tool.description MaxToolDescriptionLength
                else tool.description,
              inputSchemaJson := tool.inputSchema })
    ∧ (k.length ≤ 64 → cleanParamName k = k)
    ∧ (64 < k.length → k.length ≤ 80 → cleanParamName k = goTake k 30 ++ "_param")
    ∧ (80 < k.length → cleanParamName k = goTake k 20 ++ "_" ++ goDrop k (k.length - 20))
    ∧ (cleanAndValidateToolParameters params = .ok t →
        lookupA t "additionalProperties" = none ∧ lookupA t "strict" = none
        ∧ lookupA t "$schema" = none ∧ lookupA t "$id" = none ∧ lookupA t "$ref" = none
        ∧ lookupA t "definitions" = none ∧ lookupA t "$defs" = none)
    ∧ (lookupA (removeUnsupportedKeys params) "properties" = some (.jobj props) →
        cleanAndValidateToolParameters params = .ok t →
        lookupA t "properties" =
          some (.jobj (props.map fun kv => (cleanParamName kv.1, kv.2))))
    ∧ (lookupA (removeUnsupportedKeys params) "properties" = some (.jobj props) →
        lookupA (removeUnsupportedKeys params) "required" =
          some (.jarr (names.map JValue.jstr)) →
        (∀ s ∈ names, s ≠ "") →
        cleanAndValidateToolParameters params = .ok t →
        lookupA t "required" =
          some (.jarr (names.map fun s => JValue.jstr (cleanParamName s)))) := by
  obtain ⟨h1, h2, h3, h4, h5, h6, h7⟩ := removeUnsupportedKeys_lookup_none params
  refine ⟨build_tools_verbatim req convId, (cleanParamName_rules k).1,
    (cleanParamName_rules k).2.1, (cleanParamName_rules k).2.2, ?_, ?_, ?_⟩
  · intro hok
    refine ⟨?_, ?_, ?_, ?_, ?_, ?_, ?_⟩ <;>
      rw [clean_lookup_ne params _ (by decide) (by decide) (by decide) t hok] <;>
      assumption
  · intro hp hok
    exact clean_properties_renamed params props t hp hok
  · intro hp hr hne hok
    exact clean_required_renamed params props names t hp hr hne hok

/-- Witness for the amended C4 at a 70-character property key and a
concrete schema. -/
theorem toolSchema_passthrough_and_cleaner_witness :
    cwTools (BuildCodeWhispererRequest
        { model := "claude-sonnet-4-5",
          messages := [⟨"user", MsgContent.str "hi"⟩],
          tools := [{ name := "t", description := "d",
                      inputSchema := [("$schema", JValue.jstr "x")] },
                    { name := "web_search", description := "", inputSchema := [] }] }
        "cid").1 =
      [{ name := "t", description := "d", inputSchemaJson := [("$schema", JValue.jstr "x")] }]
    ∧ cleanParamName (String.mk (List.replicate 70 'a')) =
        goTake (String.mk (List.replicate 70 'a')) 30 ++ "_param"
    ∧ lookupA
        [("required", JValue.jarr [JValue.jstr (String.mk (List.replicate 30 'a') ++ "_param")]),
         ("type", JValue.jstr "object"),
         ("properties", JValue.jobj
           [(String.mk (List.replicate 30 'a') ++ "_param", JValue.jnull)])]
        "$schema" = none
    ∧ lookupA
        [("required", JValue.jarr [JValue.jstr (String.mk (List.replicate 30 'a') ++ "_param")]),
         ("type", JValue.jstr "object"),
         ("properties", JValue.jobj
           [(String.mk (List.replicate 30 'a') ++ "_param", JValue.jnull)])]
        "required" =
      some (JValue.jarr [JValue.jstr (cleanParamName (String.mk (List.replicate 70 'a')))]) := by
  have h := toolSchema_passthrough_and_cleaner
    { model := "claude-sonnet-4-5",
      messages := [⟨"user", MsgContent.str "hi"⟩],
      tools := [{ name := "t", description := "d",
                  inputSchema := [("$schema", JValue.jstr "x")] },
                { name := "web_search", description := "", inputSchema := [] }] }
    "cid"
    [("$schema", JValue.jstr "x"),
     ("properties", JValue.jobj [(String.mk (List.replicate 70 'a'), JValue.jnull)]),
     ("required", JValue.jarr [JValue.jstr (String.mk (List.replicate 70 'a'))])]
    [(String.mk (List.replicate 70 'a'), JValue.jnull)]
    [String.mk (List.replicate 70 'a')]
    (String.mk (List.replicate 70 'a'))
    [("required", JValue.jarr [JValue.jstr (String.mk (List.replicate 30 'a') ++ "_param")]),
     ("type", JValue.jstr "object"),
     ("properties", JValue.jobj
       [(String.mk (List.replicate 30 'a') ++ "_param", JValue.jnull)])]
  refine ⟨?_, h.2.2.1 (by decide) (by decide), ?_, ?_⟩
  · have hpass := h.1 (by decide)
    simpa using hpass
  · exact (h.2.2.2.2.1 rfl).2.2.1
  · have hreq := h.2.2.2.2.2.2 rfl rfl
      (by intro s hs; simp only [List.mem_singleton] at hs; subst hs; decide) rfl
    simpa using hreq

end Kiro
namespace Kiro

theorem mergeUserStep_fold_strings (ts : List String)
    (acc : List String × List CodeWhispererImage × List ToolResult)
    (hts : ∀ s ∈ ts, s ≠ "") :
    (ts.map fun s => (⟨"user", MsgContent.str s⟩ : AnthropicRequestMessage)).foldl
      mergeUserStep acc = (acc.1 ++ ts, acc.2.1, acc.2.2) := by
  induction ts generalizing acc with
  | nil => simp
  | cons hd tl ih =>
    have hhd : hd ≠ "" := hts hd (by simp)
    have hstep : mergeUserStep acc ⟨"user", MsgContent.str hd⟩ =
        (acc.1 ++ [hd], acc.2.1, acc.2.2) := by
      simp [mergeUserStep, processMessageContent, extractToolResultsFromMessage, hhd]
    rw [List.map_cons, List.foldl_cons, hstep, ih _ (fun s hs => hts s (by simp [hs]))]
    simp

theorem mergeUserMessages_strings (texts : List String) (modelId : String)
    (hne : ∀ s ∈ texts, s ≠ "") :
    mergeUserMessages (texts.map fun s => ⟨"user", MsgContent.str s⟩) modelId =
      { userInputMessage :=
        { content := String.intercalate "\n" texts, images := [], modelId := modelId,
          origin := "AI_EDITOR", userInputMessageContext := {} } } := by
  simp only [mergeUserMessages, mergeUserStep_fold_strings texts ([], [], []) hne]
  simp

theorem foldl_histStep_all_user (modelId : String) (slice : List AnthropicRequestMessage)
    (st : List HistoryEntry × List AnthropicRequestMessage)
    (h : ∀ m ∈ slice, m.role = "user") :
    slice.foldl (histStep modelId) st = (st.1, st.2 ++ slice) := by
  induction slice generalizing st with
  | nil => simp
  | cons hd tl ih =>
    have hhd : hd.role = "user" := h hd (by simp)
    rw [List.foldl_cons]
    have hstep : histStep modelId st hd = (st.1, st.2 ++ [hd]) := by
      simp [histStep, hhd]
    rw [hstep, ih _ (fun m hm => h m (by simp [hm]))]
    simp

end Kiro
namespace Kiro

theorem mergeUserStep_fold_general (buffer : List AnthropicRequestMessage)
    (acc : List String × List CodeWhispererImage × List ToolResult) :
    buffer.foldl mergeUserStep acc =
      (acc.1 ++ (buffer.map fun m => (processMessageContent m.content).1).filter
          (fun s => s ≠ ""),
       acc.2.1 ++ (buffer.filter fun m => (processMessageContent m.content).1 ≠ "").flatMap
          (fun m => (processMessageContent m.content).2),
       acc.2.2 ++ buffer.flatMap fun m => extractToolResultsFromMessage m.content) := by
  induction buffer generalizing acc with
  | nil => simp
  | cons m ms ih =>
    rw [List.foldl_cons, ih]
    by_cases hm : (processMessageContent m.content).1 = ""
    · have hne : ¬((processMessageContent m.content).1 ≠ "") := not_not_intro hm
      simp only [mergeUserStep, if_neg hne]
      simp [List.filter_cons, List.flatMap_cons, hm, List.append_assoc]
    · simp only [mergeUserStep, if_pos hm]
      simp [List.filter_cons, List.flatMap_cons, hm, List.append_assoc]

theorem mergeUserMessages_general (buffer : List AnthropicRequestMessage) (modelId : String) :
    mergeUserMessages buffer modelId =
      { userInputMessage :=
        { content :=
            if ¬(buffer.flatMap fun m => extractToolResultsFromMessage m.content).isEmpty
            then ""
            else String.intercalate "\n"
              ((buffer.map fun m => (processMessageContent m.content).1).filter
                fun s => s ≠ ""),
          images := (buffer.filter fun m => (processMessageContent m.content).1 ≠ "").flatMap
            fun m => (processMessageContent m.content).2,
          modelId := modelId,
          origin := "AI_EDITOR",
          userInputMessageContext :=
            { tools := [],
              toolResults := buffer.flatMap fun m =>
                extractToolResultsFromMessage m.content } } } := by
  simp only [mergeUserMessages, mergeUserStep_fold_general buffer ([], [], [])]
  simp

theorem histRun_pairing (modelId : String)
    (st : List HistoryEntry × List AnthropicRequestMessage)
    (run : List AnthropicRequestMessage) (amsg : AnthropicRequestMessage)
    (hrun : ∀ m ∈ run, m.role = "user") (ha : amsg.role = "assistant")
    (hne : ¬(st.2 ++ run).isEmpty) :
    (run ++ [amsg]).foldl (histStep modelId) st =
      (st.1 ++ [.user (mergeUserMessages (st.2 ++ run) modelId),
                .assistant (buildAssistantEntry amsg)], []) := by
  rw [List.foldl_append, foldl_histStep_all_user modelId run st hrun]
  simp only [List.foldl_cons, List.foldl_nil, histStep]
  have hnotuser : ¬(amsg.role = "user") := by
    rw [ha]
    decide
  rw [if_neg hnotuser, if_pos ha, if_pos (by simpa using hne)]

theorem histRun_pairing_positioned (modelId : String)
    (pre run post : List AnthropicRequestMessage) (amsg : AnthropicRequestMessage)
    (hrun : ∀ m ∈ run, m.role = "user") (ha : amsg.role = "assistant")
    (hne : ¬run.isEmpty)
    (hquiet : (pre.foldl (histStep modelId) ([], [])).2 = []) :
    (pre ++ run ++ amsg :: post).foldl (histStep modelId) ([], []) =
      post.foldl (histStep modelId)
        ((pre.foldl (histStep modelId) ([], [])).1
          ++ [.user (mergeUserMessages run modelId),
              .assistant (buildAssistantEntry amsg)], []) := by
  have hassoc : pre ++ run ++ amsg :: post = pre ++ ((run ++ [amsg]) ++ post) := by simp
  rw [hassoc, List.foldl_append, List.foldl_append]
  have hp := histRun_pairing modelId (pre.foldl (histStep modelId) ([], [])) run amsg hrun ha
    (by rw [hquiet]; simpa using hne)
  rw [hquiet] at hp
  simp only [List.nil_append] at hp
  rw [hp]

theorem buildHistory_trailing_ok (modelId : String)
    (slice run : List AnthropicRequestMessage)
    (hrun : ∀ m ∈ run, m.role = "user") (hne : ¬run.isEmpty)
    (hquiet : (slice.foldl (histStep modelId) ([], [])).2 = []) :
    buildHistory (slice ++ run) modelId =
      buildHistory slice modelId
        ++ [.user (mergeUserMessages run modelId),
            .assistant { content := "OK", toolUses := [] }] := by
  have hs := foldl_histStep_all_user modelId run (slice.foldl (histStep modelId) ([], [])) hrun
  simp only [buildHistory, List.foldl_append, hs, hquiet, List.nil_append]
  rw [if_pos hne, if_neg (by simp)]

/-- C8: history folding.  (a) The spec's literal example: messages
`[u:"A", u:"B", a:"X", u:"C"]` build history `[user "A\nB", assistant "X"]`
with `"C"` as the current message.  (b) General merge semantics: merging a
buffered run of user messages joins the nonempty per-message texts with
newlines, unions the image lists of the text-contributing messages, unions
all tool-result lists, and blanks the content exactly when tool results
are present.  (c) In any conversation, a maximal run of consecutive user
messages followed by an assistant message contributes to the history
exactly the merged user entry paired with that assistant entry.  (d) In
any conversation, a nonempty trailing run of user messages forms one
merged user entry paired with a synthetic `"OK"` assistant turn. -/
theorem history_folding :
    (cwHistory (BuildCodeWhispererRequest
        { model := "claude-sonnet-4-5",
          messages := [⟨"user", MsgContent.str "A"⟩, ⟨"user", MsgContent.str "B"⟩,
                       ⟨"assistant", MsgContent.str "X"⟩, ⟨"user", MsgContent.str "C"⟩] }
        "cid").1 =
      [.user { userInputMessage :=
        { content := "A\nB", images := [], modelId := "claude-sonnet-4.5",
          origin := "AI_EDITOR", userInputMessageContext := {} } },
       .assistant { content := "X", toolUses := [] }]
      ∧ cwContent (BuildCodeWhispererRequest
        { model := "claude-sonnet-4-5",
          messages := [⟨"user", MsgContent.str "A"⟩, ⟨"user", MsgContent.str "B"⟩,
                       ⟨"assistant", MsgContent.str "X"⟩, ⟨"user", MsgContent.str "C"⟩] }
        "cid").1 = "C"
      ∧ (BuildCodeWhispererRequest
        { model := "claude-sonnet-4-5",
          messages := [⟨"user", MsgContent.str "A"⟩, ⟨"user", MsgContent.str "B"⟩,
                       ⟨"assistant", MsgContent.str "X"⟩, ⟨"user", MsgContent.str "C"⟩] }
        "cid").2 = none)
    ∧ (∀ (buffer : List AnthropicRequestMessage) (modelId : String),
        mergeUserMessages buffer modelId =
          { userInputMessage :=
            { content :=
                if ¬(buffer.flatMap fun m => extractToolResultsFromMessage m.content).isEmpty
                then ""
                else String.intercalate "\n"
                  ((buffer.map fun m => (processMessageContent m.content).1).filter
                    fun s => s ≠ ""),
              images := (buffer.filter fun m =>
                  (processMessageContent m.content).1 ≠ "").flatMap
                fun m => (processMessageContent m.content).2,
              modelId := modelId,
              origin := "AI_EDITOR",
              userInputMessageContext :=
                { tools := [],
                  toolResults := buffer.flatMap fun m =>
                    extractToolResultsFromMessage m.content } } })
    ∧ (∀ (modelId : String) (pre run post : List AnthropicRequestMessage)
          (amsg : AnthropicRequestMessage),
        (∀ m ∈ run, m.role = "user") → amsg.role = "assistant" → ¬run.isEmpty →
        (pre.foldl (histStep modelId) ([], [])).2 = [] →
        (pre ++ run ++ amsg :: post).foldl (histStep modelId) ([], []) =
          post.foldl (histStep modelId)
            ((pre.foldl (histStep modelId) ([], [])).1
              ++ [.user (mergeUserMessages run modelId),
                  .assistant (buildAssistantEntry amsg)], []))
    ∧ (∀ (modelId : String) (slice run : List AnthropicRequestMessage),
        (∀ m ∈ run, m.role = "user") → ¬run.isEmpty →
        (slice.foldl (histStep modelId) ([], [])).2 = [] →
        buildHistory (slice ++ run) modelId =
          buildHistory slice modelId
            ++ [.user (mergeUserMessages run modelId),
                .assistant { content := "OK", toolUses := [] }]) := by
  refine ⟨⟨rfl, rfl, rfl⟩, mergeUserMessages_general, ?_, ?_⟩
  · intro modelId pre run post amsg hrun ha hne hquiet
    exact histRun_pairing_positioned modelId pre run post amsg hrun ha hne hquiet
  · intro modelId slice run hrun hne hquiet
    exact buildHistory_trailing_ok modelId slice run hrun hne hquiet

/-- Witness for C8: the trailing-run "OK" pairing evaluated on a concrete
conversation with a paired (user, assistant) prefix and one trailing user
message. -/
theorem history_folding_witness :
    buildHistory
        ([⟨"user", MsgContent.str "A"⟩, ⟨"assistant", MsgContent.str "X"⟩]
          ++ [⟨"user", MsgContent.str "B"⟩]) "m"
      = buildHistory [⟨"user", MsgContent.str "A"⟩, ⟨"assistant", MsgContent.str "X"⟩] "m"
        ++ [.user (mergeUserMessages [⟨"user", MsgContent.str "B"⟩] "m"),
            .assistant { content := "OK", toolUses := [] }] :=
  history_folding.2.2.2 "m"
    [⟨"user", MsgContent.str "A"⟩, ⟨"assistant", MsgContent.str "X"⟩]
    [⟨"user", MsgContent.str "B"⟩]
    (by decide) (by decide) rfl

theorem alternatingB_false (x : List HistoryEntry)
    (h1 : x = [] → False)
    (h2 : ∀ u a rest, x = HistoryEntry.user u :: HistoryEntry.assistant a :: rest → False) :
    alternatingB x = false := by
  match x with
  | [] => exact absurd rfl h1
  | [HistoryEntry.user u] => rfl
  | HistoryEntry.user u :: HistoryEntry.user u2 :: rest => rfl
  | HistoryEntry.user u :: HistoryEntry.assistant a :: rest => exact absurd rfl (h2 u a rest)
  | HistoryEntry.assistant a :: rest => rfl

theorem alternatingB_append (l l2 : List HistoryEntry) (h : alternatingB l = true) :
    alternatingB (l ++ l2) = alternatingB l2 := by
  induction l using alternatingB.induct with
  | case1 => rfl
  | case2 u a rest ih =>
    simp only [alternatingB] at h
    simp only [List.cons_append, alternatingB]
    exact ih h
  | case3 x h1 h2 =>
    rw [alternatingB_false x h1 h2] at h
    cases h

theorem alternatingB_replace_last (l : List HistoryEntry) (a x : HistoryAssistantMessage)
    (h : alternatingB l = true) (hlast : l.getLast? = some (HistoryEntry.assistant a)) :
    alternatingB (l.dropLast ++ [HistoryEntry.assistant x]) = true := by
  induction l using alternatingB.induct with
  | case1 => simp at hlast
  | case2 u a2 rest ih =>
    simp only [alternatingB] at h
    cases rest with
    | nil => rfl
    | cons r rs =>
      rw [List.getLast?_cons_cons, List.getLast?_cons_cons] at hlast
      have hd : (HistoryEntry.user u :: HistoryEntry.assistant a2 :: r :: rs).dropLast
          = HistoryEntry.user u :: HistoryEntry.assistant a2 :: (r :: rs).dropLast := by
        simp [List.dropLast]
      rw [hd]
      simp only [List.cons_append, alternatingB]
      exact ih h hlast
  | case3 y h1 h2 =>
    rw [alternatingB_false y h1 h2] at h
    cases h

theorem histStep_alternating (modelId : String)
    (st : List HistoryEntry × List AnthropicRequestMessage)
    (msg : AnthropicRequestMessage) (h : alternatingB st.1 = true) :
    alternatingB (histStep modelId st msg).1 = true := by
  simp only [histStep]
  repeat' split
  all_goals dsimp only
  all_goals first
    | exact h
    | (rw [alternatingB_append _ _ h]; rfl)
    | exact alternatingB_replace_last _ _ _ h (by assumption)

theorem foldl_histStep_alternating (modelId : String)
    (slice : List AnthropicRequestMessage)
    (st : List HistoryEntry × List AnthropicRequestMessage)
    (h : alternatingB st.1 = true) :
    alternatingB ((slice.foldl (histStep modelId) st).1) = true := by
  induction slice generalizing st with
  | nil => exact h
  | cons m ms ih => exact ih _ (histStep_alternating modelId st m h)

theorem buildHistory_alternating (slice : List AnthropicRequestMessage) (modelId : String) :
    alternatingB (buildHistory slice modelId) = true := by
  simp only [buildHistory]
  split
  · rw [alternatingB_append _ _ (foldl_histStep_alternating modelId slice ([], []) rfl)]
    rfl
  · exact foldl_histStep_alternating modelId slice ([], []) rfl

theorem build_history_alternating (req : AnthropicRequest) (convId : String) :
    alternatingB (cwHistory (BuildCodeWhispererRequest req convId).1) = true := by
  rcases hlast : req.messages.getLast? with _ | lm
  · simp only [BuildCodeWhispererRequest, hlast]
    rfl
  · simp only [BuildCodeWhispererRequest, hlast]
    rw [(validate_preserves_tools_and_history _).2]
    simp only [cwHistory]
    split
    · exact buildHistory_alternating _ _
    · rfl

theorem alternatingB_length_even (l : List HistoryEntry) (h : alternatingB l = true) :
    l.length % 2 = 0 := by
  induction l using alternatingB.induct with
  | case1 => rfl
  | case2 u a rest ih =>
    simp only [alternatingB] at h
    have := ih h
    simp only [List.length_cons]
    omega
  | case3 y h1 h2 =>
    rw [alternatingB_false y h1 h2] at h
    cases h

theorem alternatingB_get (l : List HistoryEntry) (h : alternatingB l = true)
    (i : Nat) (hi : i < l.length) :
    (l.get ⟨i, hi⟩).isUser = decide (i % 2 = 0)
    ∧ (l.get ⟨i, hi⟩).isAssistant = decide (i % 2 = 1) := by
  induction l using alternatingB.induct generalizing i with
  | case1 => exact absurd hi (by simp)
  | case2 u a rest ih =>
    simp only [alternatingB] at h
    rcases i with _ | _ | j
    · simp [List.get, HistoryEntry.isUser, HistoryEntry.isAssistant]
    · simp [List.get, HistoryEntry.isUser, HistoryEntry.isAssistant]
    · have hj : j < rest.length := by
        simp only [List.length_cons] at hi
        omega
      have hr := ih h j hj
      simp only [List.get_cons_succ]
      have e0 : (j + 1 + 1) % 2 = j % 2 := by omega
      rw [e0] at *
      exact hr
  | case3 y h1 h2 =>
    rw [alternatingB_false y h1 h2] at h
    cases h

/-- C1: every CodeWhisperer request built by the translator has a history
of even length whose entries strictly alternate user, assistant, …: the
entry at every even 0-based index (odd position) is a user entry and the
entry at every odd 0-based index (even position) is an assistant entry,
for every input Anthropic message list. -/
theorem history_even_alternating (req : AnthropicRequest) (convId : String) :
    (cwHistory (BuildCodeWhispererRequest req convId).1).length % 2 = 0
    ∧ ∀ (i : Nat) (hi : i < (cwHistory (BuildCodeWhispererRequest req convId).1).length),
        ((cwHistory (BuildCodeWhispererRequest req convId).1).get ⟨i, hi⟩).isUser
            = decide (i % 2 = 0)
        ∧ ((cwHistory (BuildCodeWhispererRequest req convId).1).get ⟨i, hi⟩).isAssistant
            = decide (i % 2 = 1) := by
  have h := build_history_alternating req convId
  exact ⟨alternatingB_length_even _ h, fun i hi => alternatingB_get _ h i hi⟩

/-- Witness for C1: the invariant evaluated on a concrete request with
consecutive user messages and a trailing unpaired user message. -/
theorem history_even_alternating_witness :
    (cwHistory (BuildCodeWhispererRequest
      { model := "claude-sonnet-4-5",
        messages := [⟨"user", MsgContent.str "A"⟩, ⟨"user", MsgContent.str "B"⟩,
                     ⟨"assistant", MsgContent.str "X"⟩, ⟨"user", MsgContent.str "C"⟩] }
      "cid").1).length % 2 = 0 :=
  (history_even_alternating
    { model := "claude-sonnet-4-5",
      messages := [⟨"user", MsgContent.str "A"⟩, ⟨"user", MsgContent.str "B"⟩,
                   ⟨"assistant", MsgContent.str "X"⟩, ⟨"user", MsgContent.str "C"⟩] }
    "cid").1

theorem lookupA_isSome_ne_nil {α : Type} (l : List (String × α)) (k : String)
    (h : (lookupA l k).isSome = true) : l.isEmpty = false := by
  cases l with
  | nil => simp [lookupA] at h
  | cons x rest => rfl

theorem eraseA_singleton_lookup {α : Type} (l : List (String × α)) (k : String)
    (hlen : l.length ≤ 1) (h : (lookupA l k).isSome = true) :
    eraseA l k = [] := by
  rcases l with _ | ⟨⟨k2, v⟩, rest⟩
  · simp [lookupA] at h
  · rcases rest with _ | ⟨y, rest2⟩
    · simp only [lookupA] at h
      by_cases hk : k2 = k
      · simp [eraseA, hk]
      · rw [if_neg hk] at h
        simp at h
    · simp only [List.length_cons] at hlen
      omega

theorem ck_smStep (st : SMState) (ev : UpstreamEvent)
    (hwf : smWFB st = true)
    (hadm : (match ev with
             | UpstreamEvent.textChunk _ => st.openTools.isEmpty
             | UpstreamEvent.toolUseBegin _ _ => st.openTools.isEmpty
             | _ => true) = true) :
    smWFB (smStep st ev).1 = true
    ∧ (smStep st ev).2.foldl ckStep (encodeCK st) = encodeCK (smStep st ev).1 := by
  obtain ⟨⟨h1, h2⟩, h3⟩ : ((!st.openText.isSome || st.openTools.isEmpty) = true
      ∧ decide (st.openTools.length ≤ 1) = true)
      ∧ (!(st.openText.isSome || !st.openTools.isEmpty) || st.pingSent) = true := by
    simpa [smWFB, Bool.and_eq_true] using hwf
  cases ev with
  | textChunk s =>
    simp only at hadm
    have hnil : st.openTools = [] := by simpa [List.isEmpty_iff] using hadm
    rcases hot : st.openText with _ | n
    · rcases hps : st.pingSent with _ | _ <;>
        exact ⟨by simp [smWFB, smStep, hot, hnil],
               by simp [smStep, encodeCK, emitStart, ckStep, hot, hnil, hps]⟩
    · refine ⟨by simpa [smWFB, smStep, hot] using hwf, ?_⟩
      simp [smStep, encodeCK, ckStep, hot]
  | toolUseBegin id name =>
    simp only at hadm
    have hnil : st.openTools = [] := by simpa [List.isEmpty_iff] using hadm
    rcases hot : st.openText with _ | n
    · rcases hps : st.pingSent with _ | _ <;>
        exact ⟨by simp [smWFB, smStep, hot, hnil],
               by simp [smStep, encodeCK, emitStart, ckStep, hot, hnil, hps]⟩
    · have hps : st.pingSent = true := by
        rw [hot] at h3
        simpa using h3
      exact ⟨by simp [smWFB, smStep, hot, hnil],
             by simp [smStep, encodeCK, emitStart, ckStep, hot, hnil, hps]⟩
  | toolUseFragment id s =>
    rcases hl : lookupA st.openTools id with _ | v
    · exact ⟨by simpa [smStep, hl] using hwf, by simp [smStep, hl]⟩
    · have hne : st.openTools.isEmpty = false :=
        lookupA_isSome_ne_nil st.openTools id (by simp [hl])
      exact ⟨by simpa [smStep, hl] using hwf,
             by simp [smStep, encodeCK, ckStep, hl, hne]⟩
  | toolUseEnd id =>
    rcases hl : lookupA st.openTools id with _ | v
    · exact ⟨by simpa [smStep, hl] using hwf, by simp [smStep, hl]⟩
    · have hne : st.openTools.isEmpty = false :=
        lookupA_isSome_ne_nil st.openTools id (by simp [hl])
      have hot : st.openText = none := by
        rw [hne] at h1
        rcases hq : st.openText with _ | n
        · rfl
        · rw [hq] at h1
          simp at h1
      have hps : st.pingSent = true := by
        rw [hne] at h3
        simpa using h3
      have herase : eraseA st.openTools id = [] :=
        eraseA_singleton_lookup st.openTools id (by simpa using h2) (by simp [hl])
      exact ⟨by simp [smWFB, smStep, hl, herase, hot],
             by simp [smStep, encodeCK, ckStep, hl, herase, hot, hne, hps]⟩

theorem ck_smBody (st : SMState) (evs : List UpstreamEvent)
    (hwf : smWFB st = true) (hadm : admissibleB st evs = true) :
    smWFB (smBody st evs).1 = true
    ∧ (smBody st evs).2.foldl ckStep (encodeCK st) = encodeCK (smBody st evs).1 := by
  induction evs generalizing st with
  | nil => exact ⟨hwf, rfl⟩
  | cons ev evs ih =>
    simp only [admissibleB, Bool.and_eq_true] at hadm
    have hstep := ck_smStep st ev hwf hadm.1
    have hrest := ih (smStep st ev).1 hstep.1 hadm.2
    refine ⟨by simpa [smBody] using hrest.1, ?_⟩
    simp only [smBody, List.foldl_append]
    rw [hstep.2, hrest.2]

theorem ck_smFinalize (st : SMState) (hwf : smWFB st = true) :
    (smFinalize st).foldl ckStep (encodeCK st) = CK.mid st.pingSent := by
  obtain ⟨⟨h1, h2⟩, h3⟩ : ((!st.openText.isSome || st.openTools.isEmpty) = true
      ∧ decide (st.openTools.length ≤ 1) = true)
      ∧ (!(st.openText.isSome || !st.openTools.isEmpty) || st.pingSent) = true := by
    simpa [smWFB, Bool.and_eq_true] using hwf
  rcases hot : st.openText with _ | n
  · rcases hto : st.openTools with _ | ⟨⟨tid, tn⟩, rest⟩
    · simp [smFinalize, encodeCK, hot, hto]
    · have hrest : rest = [] := by
        rw [hto] at h2
        simp only [List.length_cons, decide_eq_true_eq] at h2
        exact List.eq_nil_of_length_eq_zero (by omega)
      have hps : st.pingSent = true := by
        rw [hot, hto] at h3
        simpa using h3
      subst hrest
      simp [smFinalize, encodeCK, hot, hto, ckStep, hps]
  · have hto : st.openTools = [] := by
      rw [hot] at h1
      simpa [List.isEmpty_iff] using h1
    have hps : st.pingSent = true := by
      rw [hot] at h3
      simpa using h3
    simp [smFinalize, encodeCK, hot, hto, ckStep, hps]

theorem ckRun_smRun (evs : List UpstreamEvent) (h : admissibleB {} evs = true) :
    ckRun (smRun evs) = CK.done := by
  have hb := ck_smBody {} evs (by decide) h
  simp only [ckRun, smRun, List.foldl_cons, List.foldl_append]
  rw [show ckStep CK.start SSEType.messageStart = encodeCK {} from rfl, hb.2,
      ck_smFinalize _ hb.1]
  rfl

theorem countPings_append (l1 l2 : List SSEType) :
    countPings (l1 ++ l2) = countPings l1 + countPings l2 := by
  simp [countPings, List.countP_append]

theorem hasStart_append (l1 l2 : List SSEType) :
    hasStart (l1 ++ l2) = (hasStart l1 || hasStart l2) := by
  simp [hasStart, List.any_append]

theorem smStep_ping (st : SMState) (ev : UpstreamEvent) :
    (smStep st ev).1.pingSent = (st.pingSent || hasStart (smStep st ev).2)
    ∧ countPings (smStep st ev).2
        = (if st.pingSent then 0 else if hasStart (smStep st ev).2 then 1 else 0) := by
  cases ev with
  | textChunk s =>
    rcases hot : st.openText with _ | n
    · rcases hps : st.pingSent with _ | _ <;>
        simp [smStep, hot, emitStart, hps, hasStart, countPings]
    · simp [smStep, hot, hasStart, countPings]
  | toolUseBegin id name =>
    rcases hot : st.openText with _ | n <;>
      rcases hps : st.pingSent with _ | _ <;>
        simp [smStep, hot, emitStart, hps, hasStart, countPings]
  | toolUseFragment id s =>
    rcases hl : lookupA st.openTools id with _ | v <;>
      simp [smStep, hl, hasStart, countPings]
  | toolUseEnd id =>
    rcases hl : lookupA st.openTools id with _ | v <;>
      simp [smStep, hl, hasStart, countPings]

theorem smBody_ping (st : SMState) (evs : List UpstreamEvent) :
    (smBody st evs).1.pingSent = (st.pingSent || hasStart (smBody st evs).2)
    ∧ countPings (smBody st evs).2
        = (if st.pingSent then 0 else if hasStart (smBody st evs).2 then 1 else 0) := by
  induction evs generalizing st with
  | nil => simp [smBody, hasStart, countPings]
  | cons ev evs ih =>
    have hstep := smStep_ping st ev
    have hrest := ih (smStep st ev).1
    simp only [smBody]
    constructor
    · rw [hrest.1, hstep.1, hasStart_append]
      cases st.pingSent <;> cases hasStart (smStep st ev).2 <;> simp
    · rw [countPings_append, hstep.2, hrest.2]
      simp only [hstep.1, hasStart_append]
      cases hps : st.pingSent <;> cases hc : hasStart (smStep st ev).2 <;>
        cases hr : hasStart (smBody (smStep st ev).1 evs).2 <;> simp

theorem smFinalize_no_ping (st : SMState) :
    countPings (smFinalize st) = 0 ∧ hasStart (smFinalize st) = false := by
  rcases hot : st.openText with _ | n <;>
    simp [smFinalize, countPings, hasStart, hot, List.countP_append, List.any_append,
          List.countP_map, List.any_map, Function.comp]

theorem smRun_ping_count (evs : List UpstreamEvent) :
    countPings (smRun evs) = if hasStart (smRun evs) then 1 else 0 := by
  have hb := (smBody_ping {} evs).2
  have hf := smFinalize_no_ping (smBody {} evs).1
  simp only [countPings, hasStart] at hb hf ⊢
  simp only [smRun, List.countP_cons, List.any_cons, List.countP_append, List.any_append,
             hb, hf.1, hf.2]
  by_cases hstart : ((smBody {} evs).2.any fun x => x == SSEType.contentBlockStart) = true
  · simp [hstart]
  · rw [Bool.not_eq_true] at hstart
    simp [hstart]

theorem pingAfterFirstStart_noStart (l : List SSEType) (h : hasStart l = false) :
    pingAfterFirstStart l = true := by
  induction l with
  | nil => rfl
  | cons x rest ih =>
    rw [hasStart, List.any_cons, Bool.or_eq_false_iff] at h
    cases x <;> first
      | exact absurd h.1 (by decide)
      | simpa [pingAfterFirstStart] using ih h.2

theorem pingAfterFirstStart_skip (l1 l2 : List SSEType) (h : hasStart l1 = false) :
    pingAfterFirstStart (l1 ++ l2) = pingAfterFirstStart l2 := by
  induction l1 with
  | nil => rfl
  | cons x rest ih =>
    rw [hasStart, List.any_cons, Bool.or_eq_false_iff] at h
    cases x <;> first
      | exact absurd h.1 (by decide)
      | simpa [pingAfterFirstStart] using ih h.2

theorem pingAfterFirstStart_hit (l1 rest : List SSEType) (h : hasStart l1 = false) :
    pingAfterFirstStart (l1 ++ SSEType.contentBlockStart :: SSEType.ping :: rest) = true := by
  rw [pingAfterFirstStart_skip _ _ h]
  rfl

theorem smBody_start_shape (st : SMState) (evs : List UpstreamEvent)
    (hp : st.pingSent = false) (hs : hasStart (smBody st evs).2 = true) :
    ∃ l1 rest, (smBody st evs).2 = l1 ++ SSEType.contentBlockStart :: SSEType.ping :: rest
      ∧ hasStart l1 = false := by
  induction evs generalizing st with
  | nil => simp [smBody, hasStart] at hs
  | cons ev evs ih =>
    simp only [smBody] at hs ⊢
    cases ev with
    | textChunk s =>
      rcases hot : st.openText with _ | n
      · refine ⟨[], SSEType.contentBlockDelta ::
          (smBody (smStep st (UpstreamEvent.textChunk s)).1 evs).2, ?_, rfl⟩
        simp [smStep, hot, emitStart, hp]
      · have hps : (smStep st (UpstreamEvent.textChunk s)).1.pingSent = false := by
          simp [smStep, hot, hp]
        have hchunk : (smStep st (UpstreamEvent.textChunk s)).2
            = [SSEType.contentBlockDelta] := by
          simp [smStep, hot]
        rw [hchunk, hasStart_append] at hs
        have hs2 : hasStart (smBody (smStep st (UpstreamEvent.textChunk s)).1 evs).2
            = true := by
          simpa [hasStart] using hs
        obtain ⟨l1, rest, heq, hl1⟩ := ih _ hps hs2
        refine ⟨SSEType.contentBlockDelta :: l1, rest, ?_, ?_⟩
        · rw [hchunk, heq]
          simp
        · simpa [hasStart] using hl1
    | toolUseBegin id name =>
      rcases hot : st.openText with _ | n
      · refine ⟨[], (smBody (smStep st (UpstreamEvent.toolUseBegin id name)).1 evs).2, ?_, rfl⟩
        simp [smStep, hot, emitStart, hp]
      · refine ⟨[SSEType.contentBlockStop],
          (smBody (smStep st (UpstreamEvent.toolUseBegin id name)).1 evs).2, ?_, by decide⟩
        simp [smStep, hot, emitStart, hp]
    | toolUseFragment id s =>
      have hps : (smStep st (UpstreamEvent.toolUseFragment id s)).1.pingSent = false := by
        rcases hl : lookupA st.openTools id with _ | v <;> simp [smStep, hl, hp]
      have hchunk : hasStart (smStep st (UpstreamEvent.toolUseFragment id s)).2 = false := by
        rcases hl : lookupA st.openTools id with _ | v <;> simp [smStep, hl, hasStart]
      rw [hasStart_append, hchunk] at hs
      have hs2 : hasStart (smBody (smStep st (UpstreamEvent.toolUseFragment id s)).1 evs).2
          = true := by
        simpa using hs
      obtain ⟨l1, rest, heq, hl1⟩ := ih _ hps hs2
      refine ⟨(smStep st (UpstreamEvent.toolUseFragment id s)).2 ++ l1, rest, ?_, ?_⟩
      · rw [heq]
        simp
      · rw [hasStart_append, hchunk, hl1]
        rfl
    | toolUseEnd id =>
      have hps : (smStep st (UpstreamEvent.toolUseEnd id)).1.pingSent = false := by
        rcases hl : lookupA st.openTools id with _ | v <;> simp [smStep, hl, hp]
      have hchunk : hasStart (smStep st (UpstreamEvent.toolUseEnd id)).2 = false := by
        rcases hl : lookupA st.openTools id with _ | v <;> simp [smStep, hl, hasStart]
      rw [hasStart_append, hchunk] at hs
      have hs2 : hasStart (smBody (smStep st (UpstreamEvent.toolUseEnd id)).1 evs).2
          = true := by
        simpa using hs
      obtain ⟨l1, rest, heq, hl1⟩ := ih _ hps hs2
      refine ⟨(smStep st (UpstreamEvent.toolUseEnd id)).2 ++ l1, rest, ?_, ?_⟩
      · rw [heq]
        simp
      · rw [hasStart_append, hchunk, hl1]
        rfl

theorem smRun_ping_position (evs : List UpstreamEvent) :
    pingAfterFirstStart (smRun evs) = true := by
  simp only [smRun]
  by_cases hs : hasStart (smBody {} evs).2 = true
  · obtain ⟨l1, rest, heq, hl1⟩ := smBody_start_shape {} evs rfl hs
    have hl1' : hasStart (SSEType.messageStart :: l1) = false := by
      simpa [hasStart, List.any_cons] using hl1
    have hp := pingAfterFirstStart_hit (SSEType.messageStart :: l1)
      (rest ++ smFinalize (smBody {} evs).1 ++ [SSEType.messageDelta, SSEType.messageStop])
      hl1'
    rw [heq]
    simpa [List.cons_append, List.append_assoc] using hp
  · rw [Bool.not_eq_true] at hs
    apply pingAfterFirstStart_noStart
    have hf := (smFinalize_no_ping (smBody {} evs).1).2
    simp [hasStart, List.any_cons, List.any_append] at hs hf ⊢
    exact ⟨hs, hf⟩

/-- C2: for every admissible upstream event sequence, the emitted SSE
event-type sequence of a successful streaming response is accepted by the
protocol automaton for
`message_start (content_block_start ping? content_block_delta* content_block_stop)*
message_delta message_stop` — so `message_start` comes first and precedes
every `content_block_start`, every opened block is closed before
`message_delta`, and `message_stop` is last; the `ping` is emitted exactly
once when any block is opened (and never otherwise), immediately after the
first `content_block_start`. -/
theorem sse_event_order (evs : List UpstreamEvent)
    (h : admissibleB {} evs = true) :
    ckRun (smRun evs) = CK.done
    ∧ countPings (smRun evs) = (if hasStart (smRun evs) then 1 else 0)
    ∧ pingAfterFirstStart (smRun evs) = true :=
  ⟨ckRun_smRun evs h, smRun_ping_count evs, smRun_ping_position evs⟩

/-- Witness for C2: a concrete admissible stream with a text block and a
tool-use block. -/
theorem sse_event_order_witness :
    admissibleB {} [UpstreamEvent.textChunk "hi", UpstreamEvent.toolUseBegin "t" "f",
        UpstreamEvent.toolUseFragment "t" "x", UpstreamEvent.toolUseEnd "t"] = true
    ∧ ckRun (smRun [UpstreamEvent.textChunk "hi", UpstreamEvent.toolUseBegin "t" "f",
        UpstreamEvent.toolUseFragment "t" "x", UpstreamEvent.toolUseEnd "t"]) = CK.done :=
  ⟨by decide,
   (sse_event_order [UpstreamEvent.textChunk "hi", UpstreamEvent.toolUseBegin "t" "f",
      UpstreamEvent.toolUseFragment "t" "x", UpstreamEvent.toolUseEnd "t"] (by decide)).1⟩

/-- C4 counterexample: a declared tool schema carrying a `$schema` key is
sent upstream verbatim — the key the claimed normalization would remove is
still present in the built request, because `BuildCodeWhispererRequest`
never calls `cleanAndValidateToolParameters`. -/
theorem toolSchema_not_normalized_counterexample :
    (cwTools (BuildCodeWhispererRequest
      { model := "claude-sonnet-4-5",
        messages := [⟨"user", MsgContent.str "hi"⟩],
        tools := [{ name := "t", description := "d",
                    inputSchema := [("$schema", JValue.jstr "draft")] }] } "cid").1).map
        (fun t => lookupA t.inputSchemaJson "$schema")
      = [some (JValue.jstr "draft")] := rfl

/-- C10: POST /v1/messages is rejected with HTTP 400 before any upstream
call whenever the text of the last message, after trimming whitespace, is
empty or exactly the literal "answer for user question" — so a request
whose last message is precisely that sentence is always refused. -/
theorem messages_precheck_rejects_literal (req : AnthropicRequest)
    (lastMsg : AnthropicRequestMessage)
    (hlast : req.messages.getLast? = some lastMsg)
    (h : goTrimSpace (GetMessageContent lastMsg.content) = ""
       ∨ goTrimSpace (GetMessageContent lastMsg.content) = "answer for user question") :
    messagesHandlerPrecheck req = HandlerDecision.reject 400 := by
  simp only [messagesHandlerPrecheck, hlast]
  rw [if_pos h]

/-- Witness for C10: the literal sentence as the sole message is refused. -/
theorem messages_precheck_rejects_literal_witness :
    messagesHandlerPrecheck
      { model := "claude-sonnet-4-5",
        messages := [⟨"user", MsgContent.str "answer for user question"⟩] }
      = HandlerDecision.reject 400 :=
  messages_precheck_rejects_literal
    { model := "claude-sonnet-4-5",
      messages := [⟨"user", MsgContent.str "answer for user question"⟩] }
    ⟨"user", MsgContent.str "answer for user question"⟩ rfl (Or.inr (by decide))

end Kiro
